import Mathlib

/-
Verification of the CBN (Causal Belief Network) graph engine from
`backend/cbn_manager.py`.

The Python engine manipulates a dict-of-dicts graph.  We embed it shallowly:

* Python dicts become association lists `List (key × value)` with unique keys
  (Python dicts preserve insertion order; new keys are appended, updates keep
  the position, `del` removes the entry).
* Python floats become exact rationals `ℚ` (all claims are about the intended
  real-number arithmetic of the formulas, not about rounding).
* Every function is translated from the source of `cbn_manager.py`; evidence
  dicts always carry the fields the engine itself creates, so Python's
  `e.get(field, default)` on engine-created evidence is plain field access.
-/

namespace CBNEngine

/-! ## Association-list helpers (Python `dict` semantics on unique keys) -/

/-- Lookup the value bound to key `k` (Python `d[k]` / `d.get(k)`). -/
def alookup {κ α : Type} [DecidableEq κ] (k : κ) : List (κ × α) → Option α
  | [] => none
  | (k1, v) :: rest => if k1 = k then some v else alookup k rest

/-- Update every binding of key `k` in place (Python `d[k] = f d[k]`;
on a dict the key occurs at most once and keeps its position). -/
def aupdate {κ α : Type} [DecidableEq κ] (k : κ) (f : α → α)
    (l : List (κ × α)) : List (κ × α) :=
  l.map (fun p => if p.1 = k then (p.1, f p.2) else p)

/-- Remove the binding of key `k` (Python `del d[k]`). -/
def aerase {κ α : Type} [DecidableEq κ] (k : κ) (l : List (κ × α)) : List (κ × α) :=
  l.filter (fun p => p.1 ≠ k)

/-- Set key `k` to `v`: replace in place when present, else append
(Python `d[k] = v`). -/
def aset {κ α : Type} [DecidableEq κ] (k : κ) (v : α) (l : List (κ × α)) : List (κ × α) :=
  if (alookup k l).isSome then aupdate k (fun _ => v) l else l ++ [(k, v)]

/-! ## Data model -/

/-- Evidence entry attached to a node (`{qa_id, confidence, importance}`). -/
structure NodeEvidence where
  qa_id : String
  confidence : ℚ
  importance : ℚ
deriving DecidableEq, Repr

/-- Evidence entry attached to an edge (`{qa_id, confidence, original_modifier}`). -/
structure EdgeEvidence where
  qa_id : String
  confidence : ℚ
  original_modifier : ℚ
deriving DecidableEq, Repr

/-- A node record of the CBN graph. -/
structure Node where
  label : String
  aggregate_confidence : ℚ
  evidence : List NodeEvidence
  incoming_edges : List String
  outgoing_edges : List String
  importance : ℚ
  status : String
  frequency : Nat
  is_stance : Bool
deriving DecidableEq, Repr

/-- An edge record of the CBN graph. -/
structure Edge where
  source : String
  target : String
  aggregate_confidence : ℚ
  evidence : List EdgeEvidence
  modifier : ℚ
  source_label : String
  target_label : String
  explanation : String
  direction : String
  strength : ℚ
deriving DecidableEq, Repr

/-- An `extracted_pairs` entry of a QA-history record. -/
structure PairEntry where
  edge_id : String
  source : String
  target : String
  source_label : String
  target_label : String
  confidence : ℚ
  modifier : ℚ
  direction : String
deriving DecidableEq, Repr

/-- An `extracted_nodes` entry of a QA-history record. -/
structure NodeEntry where
  node_id : String
  label : String
  confidence : ℚ
  importance : ℚ
  status : String
deriving DecidableEq, Repr

/-- A QA-history record. -/
structure QAEntry where
  question : String
  answer : String
  extracted_pairs : List PairEntry
  extracted_nodes : List NodeEntry
deriving DecidableEq, Repr

/-- The CBN graph (the `cbn` dict threaded through `CBNManager`). -/
structure CBN where
  nodes : List (String × Node)
  edges : List (String × Edge)
  anchor_queue : List String
  edge_counter : Nat
  qa_history : List (String × QAEntry)
deriving DecidableEq, Repr

/-- Maximum allowed anchors (`self.max_anchors = 25`). -/
def max_anchors : Nat := 25

/-- Similarity threshold (`SemanticSimilarityEngine(similarity_threshold=0.7)`). -/
def similarity_threshold : ℚ := 0.7

/-! ## SemanticSimilarityEngine -/

/-- Lowercasing on the character list (Python `str.lower()`; the engine only
compares the results, and every non-ASCII character is discarded by
`preprocess_label` anyway). -/
def lowerString (s : String) : String :=
  String.mk (s.data.map Char.toLower)

/-- Split a character list on spaces, keeping empty pieces (they are filtered
by the caller, which matches Python `str.split()`). -/
def splitOnSpace : List Char → List Char → List String
  | [], acc => [String.mk acc.reverse]
  | c :: rest, acc =>
      if c = ' ' then String.mk acc.reverse :: splitOnSpace rest []
      else splitOnSpace rest (c :: acc)

/-- Python `preprocess_label`: lowercase, replace every character that is not
alphanumeric (and not whitespace) by a space, then `split()` into words.
A whitespace character and a character replaced by a space act identically as
separators, so we map every non-alphanumeric character to a space. -/
def preprocess_label (label : String) : List String :=
  let cleaned := label.data.map (fun c => if c.isAlphanum then c.toLower else ' ')
  (splitOnSpace cleaned []).filter (fun w => w ≠ "")

/-- Python `node_similarity`: Jaccard similarity of the two token sets. -/
def node_similarity (label1 label2 : String) : ℚ :=
  let words1 := (preprocess_label label1).dedup
  let words2 := (preprocess_label label2).dedup
  let common := words1.filter (fun w => words2.contains w)
  let total := (words1 ++ words2).dedup
  if total.isEmpty then 0 else (common.length : ℚ) / (total.length : ℚ)

/-- Inner loop of `find_similar_nodes`: compare `(id1, n1)` against every later
node.  The Python guards `node_id1 not in nodes` and the `processed_pairs` set
never fire on a dict (keys are unique and are taken from `nodes` itself). -/
def simRow (id1 : String) (n1 : Node) : List (String × Node) → List (String × String × ℚ)
  | [] => []
  | (id2, n2) :: rest =>
      if n1.label = "" ∨ n2.label = "" then simRow id1 n1 rest
      else if node_similarity n1.label n2.label ≥ similarity_threshold then
        (id1, id2, node_similarity n1.label n2.label) :: simRow id1 n1 rest
      else simRow id1 n1 rest

/-- Both loops of `find_similar_nodes` (all index pairs `i < j`). -/
def simPairs : List (String × Node) → List (String × String × ℚ)
  | [] => []
  | (id1, n1) :: rest => simRow id1 n1 rest ++ simPairs rest

/-- Python `SemanticSimilarityEngine.find_similar_nodes`. -/
def find_similar_nodes (nodes : List (String × Node)) : List (String × String × ℚ) :=
  if nodes.length < 2 then [] else simPairs nodes

/-! ## Aggregation functions -/

/-- Python `_calculate_aggregate_confidence` (edge evidence): average of the
confidences, `0.0` when the evidence list is empty. -/
def calculate_aggregate_confidence (evidence_list : List EdgeEvidence) : ℚ :=
  if evidence_list.isEmpty then 0
  else (evidence_list.map (fun e => e.confidence)).sum / (evidence_list.length : ℚ)

/-- Python `_calculate_node_aggregate_confidence` (node evidence): average of
the confidences, `0.5` when the evidence list is empty. -/
def calculate_node_aggregate_confidence (evidence_list : List NodeEvidence) : ℚ :=
  if evidence_list.isEmpty then 0.5
  else (evidence_list.map (fun e => e.confidence)).sum / (evidence_list.length : ℚ)

/-- Python `_calculate_aggregate_modifier`: confidence-weighted average of the
original modifiers, `0.0` when empty or when the total confidence is not
positive. -/
def calculate_aggregate_modifier (evidence_list : List EdgeEvidence) : ℚ :=
  if evidence_list.isEmpty then 0
  else
    let total_confidence := (evidence_list.map (fun e => e.confidence)).sum
    if total_confidence > 0 then
      (evidence_list.map (fun e => e.original_modifier * e.confidence)).sum / total_confidence
    else 0

/-- Python `_calculate_node_importance`: confidence-weighted average of the
importances; plain average when the total confidence is not positive; `0.5`
when empty. -/
def calculate_node_importance (evidence_list : List NodeEvidence) : ℚ :=
  if evidence_list.isEmpty then 0.5
  else
    let total_confidence := (evidence_list.map (fun e => e.confidence)).sum
    if total_confidence > 0 then
      (evidence_list.map (fun e => e.importance * e.confidence)).sum / total_confidence
    else (evidence_list.map (fun e => e.importance)).sum / (evidence_list.length : ℚ)

/-! ## Merge direction (`_determine_merge_direction`) -/

/-- Python `_determine_merge_direction`: the chain of early-`return` branches,
in source order.  Result is `(source_id, target_id)`. -/
def determine_merge_direction (node_id1 node_id2 : String) (node1 node2 : Node) :
    String × String :=
  if node1.is_stance = true ∧ ¬ node2.is_stance = true then (node_id2, node_id1)
  else if node2.is_stance = true ∧ ¬ node1.is_stance = true then (node_id1, node_id2)
  else if node1.status = "anchor" ∧ ¬ node2.status = "anchor" then (node_id2, node_id1)
  else if node2.status = "anchor" ∧ ¬ node1.status = "anchor" then (node_id1, node_id2)
  else if node1.frequency > node2.frequency then (node_id2, node_id1)
  else if node2.frequency > node1.frequency then (node_id1, node_id2)
  else if node1.importance > node2.importance then (node_id2, node_id1)
  else if node2.importance > node1.importance then (node_id1, node_id2)
  else if node1.aggregate_confidence > node2.aggregate_confidence then (node_id2, node_id1)
  else (node_id1, node_id2)

/-- Modelled from the spec: the ordered priority rule table of §4.4 — each rule
applies only on a strict difference of its attribute, ties fall through, and if
all five rules tie the first-encountered node is the source. -/
def spec_merge_direction (node_id1 node_id2 : String) (node1 node2 : Node) :
    String × String :=
  if node1.is_stance ≠ node2.is_stance then
    (if node1.is_stance then (node_id2, node_id1) else (node_id1, node_id2))
  else if (node1.status = "anchor") ≠ (node2.status = "anchor") then
    (if node1.status = "anchor" then (node_id2, node_id1) else (node_id1, node_id2))
  else if node1.frequency ≠ node2.frequency then
    (if node1.frequency > node2.frequency then (node_id2, node_id1) else (node_id1, node_id2))
  else if node1.importance ≠ node2.importance then
    (if node1.importance > node2.importance then (node_id2, node_id1) else (node_id1, node_id2))
  else if node1.aggregate_confidence ≠ node2.aggregate_confidence then
    (if node1.aggregate_confidence > node2.aggregate_confidence then (node_id2, node_id1)
     else (node_id1, node_id2))
  else (node_id1, node_id2)

/-- Scenario node A of §8: non-stance, frequency 3. -/
def scenarioNodeA : Node :=
  { label := "climate tax", aggregate_confidence := 0.5, evidence := [],
    incoming_edges := [], outgoing_edges := [], importance := 0.5,
    status := "candidate", frequency := 3, is_stance := false }

/-- Scenario node B of §8: stance, frequency 1. -/
def scenarioNodeB : Node :=
  { label := "climate tax policy", aggregate_confidence := 0.5, evidence := [],
    incoming_edges := [], outgoing_edges := [], importance := 0.5,
    status := "candidate", frequency := 1, is_stance := true }

/-! ## add_edge -/

/-- The `edge_data` payload consumed by `add_edge`.  Optional fields mirror
Python's `edge_data.get(key, default)` calls. -/
structure EdgeData where
  from_label : String
  to_label : String
  aggregate_confidence : Option ℚ
  strength : Option ℚ
  direction : Option String
  support_qas : Option (List String)
  explanation : Option String
deriving DecidableEq, Repr

/-- Python `add_edge`.  Scans the node table for labels matching
`from_label`/`to_label` case-insensitively (the loop overwrites, so the last
match wins), creates the edge with a sequential id, and — exactly as in the
source, where the two `append` statements sit inside the
`if edge_data.get('explanation'):` logging block — updates the endpoint nodes'
edge lists only when a non-empty explanation is present.
Python indexes `support_qas[0]`; on an explicitly supplied empty list that
would raise, which no claim exercises, so we take the head with a default. -/
def findEndpointIds (cbn : CBN) (fl tl : String) : Option String × Option String :=
  cbn.nodes.foldl
    (fun (acc : Option String × Option String) p =>
      (if lowerString p.2.label = fl then some p.1 else acc.1,
       if lowerString p.2.label = tl then some p.1 else acc.2))
    (none, none)

/-- The edge record built by `add_edge`: evidence entry keeps the raw
direction-signed strength as `original_modifier`, while the stored `modifier`
is that value scaled by the confidence. -/
def edgeFromData (edge_data : EdgeData) (from_node_id to_node_id : String) : Edge :=
  let confidence := edge_data.aggregate_confidence.getD 0.7
  let strength := edge_data.strength.getD 0.7
  let direction := edge_data.direction.getD "positive"
  let modifier := if direction = "positive" then strength else -strength
  { source := from_node_id, target := to_node_id,
    aggregate_confidence := confidence,
    evidence := [{ qa_id := (edge_data.support_qas.getD ["unknown_qa_id"]).headD "unknown_qa_id",
                   confidence := confidence, original_modifier := modifier }],
    modifier := modifier * confidence,
    source_label := edge_data.from_label, target_label := edge_data.to_label,
    explanation := edge_data.explanation.getD "",
    direction := direction, strength := strength }

/-- The mutation performed by `add_edge` once both endpoints are resolved:
register the edge, and — exactly as in the source, where the two node-list
`append` statements sit inside the `if edge_data.get('explanation'):` logging
block — update the endpoint nodes' edge lists only when a non-empty
explanation is present. -/
def addEdgeCore (cbn : CBN) (edge_data : EdgeData)
    (from_node_id to_node_id : String) : CBN :=
  let edge_id := "e" ++ toString (cbn.edge_counter + 1)
  let cbn1 : CBN :=
    { cbn with edges := aset edge_id (edgeFromData edge_data from_node_id to_node_id) cbn.edges,
               edge_counter := cbn.edge_counter + 1 }
  let nodesUpd :=
    aupdate to_node_id
      (fun n => { n with incoming_edges := n.incoming_edges ++ [edge_id] })
      (aupdate from_node_id
        (fun n => { n with outgoing_edges := n.outgoing_edges ++ [edge_id] })
        cbn1.nodes)
  if edge_data.explanation.getD "" ≠ "" then { cbn1 with nodes := nodesUpd }
  else cbn1

/-- Python `add_edge`.  Scans the node table for labels matching
`from_label`/`to_label` case-insensitively (the loop overwrites, so the last
match wins), and refuses falsy (missing or empty) endpoint ids.
Python indexes `support_qas[0]`; on an explicitly supplied empty list that
would raise, which no claim exercises, so we take the head with a default. -/
def add_edge (cbn : CBN) (edge_data : EdgeData) : CBN × Option String :=
  match findEndpointIds cbn (lowerString edge_data.from_label) (lowerString edge_data.to_label) with
  | (some from_node_id, some to_node_id) =>
    if from_node_id = "" ∨ to_node_id = "" then (cbn, none)
    else (addEdgeCore cbn edge_data from_node_id to_node_id,
          some ("e" ++ toString (cbn.edge_counter + 1)))
  | _ => (cbn, none)

/-! ## Node promotion (`_check_node_promotion`) -/

/-- One iteration of the `_check_node_promotion` loop body on entry `p`, with
the anchor queue as it stands when the entry is reached. -/
def promoteStep (queue : List String) (p : String × Node) :
    (String × Node) × List String :=
  if p.2.status ≠ "candidate" then (p, queue)
  else
    let frequency := p.2.frequency
    let importance := p.2.importance
    let confidence := p.2.aggregate_confidence
    let connection_count := p.2.incoming_edges.length + p.2.outgoing_edges.length
    if (frequency ≥ 2 ∨ (importance > 0.85 ∧ confidence > 0.85) ∨ connection_count > 0)
        ∧ p.1 ∉ queue ∧ queue.length < max_anchors then
      ((p.1, { p.2 with status := "anchor" }), queue ++ [p.1])
    else (p, queue)

/-- The `_check_node_promotion` loop over all node entries, threading the
anchor queue (the Python loop mutates `self.anchor_queue`, which is the
aliased `cbn['anchor_queue']`, while iterating). -/
def promoteList : List (String × Node) → List String →
    List (String × Node) × List String
  | [], queue => ([], queue)
  | p :: rest, queue =>
      let r := promoteStep queue p
      let rr := promoteList rest r.2
      (r.1 :: rr.1, rr.2)

/-- Python `_check_node_promotion`. -/
def check_node_promotion (cbn : CBN) : CBN :=
  let r := promoteList cbn.nodes cbn.anchor_queue
  { cbn with nodes := r.1, anchor_queue := r.2 }

/-! ## Convergence counter and step controller -/

/-- Number of `candidate`-status nodes of the graph. -/
def candidate_count (cbn : CBN) : Nat :=
  (cbn.nodes.filter (fun p => p.2.status = "candidate")).length

/-- Python `_check_structure_convergence`, as a transition on the manager's
`stable_rounds` counter given the candidate count of the evaluated graph.
Returns the new counter and the boolean result. -/
def structure_convergence_step (stable_rounds cand : Nat) : Nat × Bool :=
  if cand = 0 ∧ stable_rounds ≥ 3 then (stable_rounds, true)
  else if cand > 0 then (0, false)
  else (stable_rounds + 1, false)

/-- A run of `_check_structure_convergence` over successive evaluation rounds
(one entry of `cands` per round), returning the final counter and the result
of the last round (`false` for the empty run). -/
def structure_convergence_run (stable_rounds : Nat) : List Nat → Nat × Bool
  | [] => (stable_rounds, false)
  | c :: rest =>
      let r := structure_convergence_step stable_rounds c
      if rest.isEmpty then r else structure_convergence_run r.1 rest

/-- Python `get_next_step`, as a transition on the manager's `current_step`
(1 = node_discovery, 2 = relationship_qualification) given the graph's anchor
queue. -/
def get_next_step (current_step : Nat) (anchor_queue : List String) : Nat :=
  if current_step = 1 ∧ anchor_queue.length ≥ 5 then 2 else current_step

/-! ## Node merging (`_merge_nodes`, `_redirect_node_edges`) -/

/-- Evidence-union loop of `_merge_nodes`: append each source entry whose
`qa_id` is not yet present in the target list (the engine always stores
`confidence`/`importance` on node evidence, so the Python default-filling is
the identity). -/
def mergeNodeEvidence (target_ev source_ev : List NodeEvidence) : List NodeEvidence :=
  source_ev.foldl
    (fun acc e => if acc.any (fun e2 => e2.qa_id = e.qa_id) then acc else acc ++ [e])
    target_ev

/-- Evidence-union loop of `_merge_edges` (same shape, edge evidence). -/
def mergeEdgeEvidence (target_ev source_ev : List EdgeEvidence) : List EdgeEvidence :=
  source_ev.foldl
    (fun acc e => if acc.any (fun e2 => e2.qa_id = e.qa_id) then acc else acc ++ [e])
    target_ev

/-- One iteration of the incoming-edge loop of `_redirect_node_edges`:
`acc` is `(edge table, new node's incoming_edges)`. -/
def redirectStepIn (new_id : String) (acc : List (String × Edge) × List String)
    (eid : String) : List (String × Edge) × List String :=
  if (alookup eid acc.1).isSome then
    (aupdate eid (fun e => { e with target := new_id }) acc.1,
     if eid ∈ acc.2 then acc.2 else acc.2 ++ [eid])
  else acc

/-- One iteration of the outgoing-edge loop of `_redirect_node_edges`. -/
def redirectStepOut (new_id : String) (acc : List (String × Edge) × List String)
    (eid : String) : List (String × Edge) × List String :=
  if (alookup eid acc.1).isSome then
    (aupdate eid (fun e => { e with source := new_id }) acc.1,
     if eid ∈ acc.2 then acc.2 else acc.2 ++ [eid])
  else acc

/-- Python `_redirect_node_edges`.  The Python body reads both node records
unconditionally (a missing id would raise a `KeyError`); the only caller,
`_merge_nodes`, has already checked that both exist, so the fallback branch is
unreachable and returns the graph unchanged. -/
def redirectCore (cbn : CBN) (old_node new_node : Node) (new_id : String) : CBN :=
  let ri := old_node.incoming_edges.foldl (redirectStepIn new_id)
    (cbn.edges, new_node.incoming_edges)
  let ro := old_node.outgoing_edges.foldl (redirectStepOut new_id)
    (ri.1, new_node.outgoing_edges)
  let nodesUpd := aupdate new_id
    (fun n => { n with incoming_edges := ri.2, outgoing_edges := ro.2 }) cbn.nodes
  { cbn with edges := ro.1, nodes := nodesUpd }

def redirect_node_edges (cbn : CBN) (old_id new_id : String) : CBN :=
  match alookup old_id cbn.nodes, alookup new_id cbn.nodes with
  | some old_node, some new_node => redirectCore cbn old_node new_node new_id
  | _, _ => cbn

/-- The `qa_history` rewrite of `_merge_nodes` step 5 on one QA entry. -/
def rewriteQAEntry (source_id target_id : String) (qa : QAEntry) : QAEntry :=
  let newNodes := qa.extracted_nodes.map (fun ne =>
    if ne.node_id = source_id then { ne with node_id := target_id } else ne)
  let newPairs := qa.extracted_pairs.map (fun pe =>
    let pe1 := if pe.source = source_id then { pe with source := target_id } else pe
    if pe1.target = source_id then { pe1 with target := target_id } else pe1)
  { qa with extracted_nodes := newNodes, extracted_pairs := newPairs }

/-- The node-record update applied to the merge target: union the evidence,
add the frequencies, recompute importance and aggregate confidence. -/
def mergedNodeUpdate (source_node : Node) (n : Node) : Node :=
  let ev := mergeNodeEvidence n.evidence source_node.evidence
  { n with evidence := ev,
           frequency := n.frequency + source_node.frequency,
           importance := calculate_node_importance ev,
           aggregate_confidence := calculate_node_aggregate_confidence ev }

def mergeNodesCore (cbn : CBN) (source_node : Node) (source_id target_id : String) : CBN :=
  let cbn1 : CBN :=
    { cbn with nodes := aupdate target_id (mergedNodeUpdate source_node) cbn.nodes }
  let cbn2 := redirect_node_edges cbn1 source_id target_id
  let qaUpd := cbn2.qa_history.map (fun p => (p.1, rewriteQAEntry source_id target_id p.2))
  let cbn3 : CBN := { cbn2 with qa_history := qaUpd }
  let cbn4 : CBN := { cbn3 with nodes := aerase source_id cbn3.nodes }
  let queue :=
    if source_id ∈ cbn4.anchor_queue then
      let q := cbn4.anchor_queue.erase source_id
      if target_id ∈ q then q else q ++ [target_id]
    else cbn4.anchor_queue
  { cbn4 with anchor_queue := queue }

/-- Python `_merge_nodes`: union evidence by `qa_id`, add frequencies,
recompute importance and aggregate confidence, redirect edges, rewrite
`qa_history`, delete the source node, and fix up the anchor queue (remove the
source if present; then append the target if absent). -/
def merge_nodes (cbn : CBN) (source_id target_id : String) : CBN :=
  match alookup source_id cbn.nodes, alookup target_id cbn.nodes with
  | some source_node, some _ => mergeNodesCore cbn source_node source_id target_id
  | _, _ => cbn

/-! ## Duplicate-edge merging (`_merge_edges`, `_merge_duplicate_edges_after_node_merge`) -/

/-- The edge-record update applied to the merge target edge: union the
evidence, recompute aggregate confidence and modifier, derive
direction/strength, and prefer a non-empty explanation/label from the losing
edge when the survivor lacks one. -/
def mergedEdgeUpdate (source_edge : Edge) (e : Edge) : Edge :=
  let merged_ev := mergeEdgeEvidence e.evidence source_edge.evidence
  let new_conf := calculate_aggregate_confidence merged_ev
  let new_mod := calculate_aggregate_modifier merged_ev
  { e with evidence := merged_ev, aggregate_confidence := new_conf,
           modifier := new_mod,
           direction := if new_mod ≥ 0 then "positive" else "negative",
           strength := |new_mod|,
           explanation :=
             if e.explanation = "" ∧ ¬ source_edge.explanation = ""
             then source_edge.explanation else e.explanation,
           source_label :=
             if e.source_label = "" ∧ ¬ source_edge.source_label = ""
             then source_edge.source_label else e.source_label,
           target_label :=
             if e.target_label = "" ∧ ¬ source_edge.target_label = ""
             then source_edge.target_label else e.target_label }

def mergeEdgesCore (cbn : CBN) (source_edge : Edge) (source_id target_id : String) : CBN :=
  let cbn1 := { cbn with edges := aupdate target_id (mergedEdgeUpdate source_edge) cbn.edges }
  let outUpd := aupdate source_edge.source
    (fun n => { n with outgoing_edges := n.outgoing_edges.erase source_id }) cbn1.nodes
  let cbn2 := { cbn1 with nodes := outUpd }
  let inUpd := aupdate source_edge.target
    (fun n => { n with incoming_edges := n.incoming_edges.erase source_id }) cbn2.nodes
  let cbn3 := { cbn2 with nodes := inUpd }
  { cbn3 with edges := aerase source_id cbn3.edges }

/-- Python `_merge_edges`: union evidence by `qa_id`, recompute aggregate
confidence and modifier, derive direction/strength, prefer non-empty
explanation/labels, drop the node references to the source edge, delete it. -/
def merge_edges (cbn : CBN) (source_id target_id : String) : CBN :=
  match alookup source_id cbn.edges, alookup target_id cbn.edges with
  | some source_edge, some _ => mergeEdgesCore cbn source_edge source_id target_id
  | _, _ => cbn

/-- One iteration of the duplicate-scan loop of
`_merge_duplicate_edges_after_node_merge`: `st` is the
`(node_pair_to_edges, merge_candidates)` accumulator. -/
def dupScanStep (edges : List (String × Edge))
    (st : List ((String × String) × String) × List (String × String))
    (eid : String) :
    List ((String × String) × String) × List (String × String) :=
  match alookup eid edges with
  | none => st
  | some edge =>
    if edge.source = "" ∨ edge.target = "" then st
    else
      let node_pair := (edge.source, edge.target)
      match alookup node_pair st.1 with
      | some existing_eid =>
        match alookup existing_eid edges with
        | some existing_edge =>
          if existing_edge.aggregate_confidence > edge.aggregate_confidence ∨
              (existing_edge.aggregate_confidence = edge.aggregate_confidence ∧
               existing_edge.evidence.length ≥ edge.evidence.length) then
            (st.1, st.2 ++ [(eid, existing_eid)])
          else
            (aupdate node_pair (fun _ => eid) st.1, st.2 ++ [(existing_eid, eid)])
        | none => st
      | none => (st.1 ++ [(node_pair, eid)], st.2)

/-- Python `_merge_duplicate_edges_after_node_merge`. -/
def merge_duplicate_edges_after_node_merge (cbn : CBN) (target_id : String) : CBN :=
  match alookup target_id cbn.nodes with
  | none => cbn
  | some target_node =>
    let scan := (target_node.incoming_edges ++ target_node.outgoing_edges).foldl
      (dupScanStep cbn.edges) ([], [])
    scan.2.foldl
      (fun c pr =>
        if (alookup pr.1 c.edges).isSome ∧ (alookup pr.2 c.edges).isSome then
          merge_edges c pr.1 pr.2
        else c)
      cbn

/-! ## The merge pass (`merge_graph_components`, `_find_mergeable_nodes`) -/

/-- Python `_find_mergeable_nodes`: all similar pairs, each oriented by the
priority rules (the existence re-checks are kept from the source even though
they cannot fail here: the pair ids come from the same unmodified table). -/
def find_mergeable_nodes (cbn : CBN) : List (String × String) :=
  if cbn.nodes.length < 2 then []
  else
    (find_similar_nodes cbn.nodes).filterMap (fun trip =>
      match alookup trip.1 cbn.nodes, alookup trip.2.1 cbn.nodes with
      | some n1, some n2 => some (determine_merge_direction trip.1 trip.2.1 n1 n2)
      | _, _ => none)

/-- The execution loop of `merge_graph_components`: apply each node merge
(skipping pairs whose nodes no longer exist), then merge duplicate edges
around the merge target. -/
def applyNodeMerges : CBN → List (String × String) → CBN
  | cbn, [] => cbn
  | cbn, (s, t) :: rest =>
    if (alookup s cbn.nodes).isSome ∧ (alookup t cbn.nodes).isSome then
      applyNodeMerges (merge_duplicate_edges_after_node_merge (merge_nodes cbn s t) t) rest
    else applyNodeMerges cbn rest

/-- Python `merge_graph_components`: find merge candidates once, apply them,
then run the promotion check. -/
def merge_graph_components (cbn : CBN) : CBN :=
  check_node_promotion (applyNodeMerges cbn (find_mergeable_nodes cbn))

/-! ## add_qa_to_graph -/

/-- The `qa_pair` argument of `add_qa_to_graph` (only the fields it reads). -/
structure QAPair where
  id : Option String
  question : String
  answer : String
deriving DecidableEq, Repr

/-- One entry of the `extracted_nodes` argument of `add_qa_to_graph` (fields
read through `node_data.get(...)` with their defaults applied). -/
structure NodeCandidate where
  label : String
  aggregate_confidence : ℚ
  importance : ℚ
deriving DecidableEq, Repr

/-- QA-id resolution of `add_qa_to_graph`: the given id unless missing or
falsy, else `"qa" + (len(qa_history) + 1)`. -/
def resolveQaId (cbn : CBN) (qa_pair : QAPair) : String :=
  match qa_pair.id with
  | some s => if s = "" then "qa" ++ toString (cbn.qa_history.length + 1) else s
  | none => "qa" ++ toString (cbn.qa_history.length + 1)

/-- The evidence append of the direct-edge block of `add_qa_to_graph`: read
the edge's current aggregate confidence and stored modifier, recover the
original modifier as `modifier / max(confidence, 0.01)`, append the entry, and
recompute the aggregates. -/
def qaEdgeUpdate (qa_id : String) (confidence modifier : ℚ) (e : Edge) : Edge :=
  let ev := e.evidence ++
    [{ qa_id := qa_id, confidence := confidence,
       original_modifier := modifier / max confidence 0.01 }]
  { e with evidence := ev,
           aggregate_confidence := calculate_aggregate_confidence ev,
           modifier := calculate_aggregate_modifier ev }

/-- The direct-edge block of `add_qa_to_graph`: build the `extracted_pairs`
entry and, when this `qa_id` is not yet in the edge's evidence, append it and
recompute the aggregates. -/
def addQaEdgeCore (cbn : CBN) (qa_id eid : String) (edge : Edge) :
    CBN × List PairEntry :=
      if edge.source = "" ∨ edge.target = "" then (cbn, [])
      else
        let source_label :=
          if edge.source_label = "" then
            match alookup edge.source cbn.nodes with
            | some n => n.label
            | none => ""
          else edge.source_label
        let target_label :=
          if edge.target_label = "" then
            match alookup edge.target cbn.nodes with
            | some n => n.label
            | none => ""
          else edge.target_label
        let confidence := edge.aggregate_confidence
        let modifier := edge.modifier
        let direction := if modifier ≥ 0 then "positive" else "negative"
        let pe : PairEntry :=
          { edge_id := eid, source := edge.source, target := edge.target,
            source_label := source_label, target_label := target_label,
            confidence := confidence, modifier := modifier, direction := direction }
        if edge.evidence.any (fun e => e.qa_id = qa_id) then (cbn, [pe])
        else
          ({ cbn with edges := aupdate eid (qaEdgeUpdate qa_id confidence modifier) cbn.edges },
           [pe])

def addQaEdgePath (cbn : CBN) (qa_id : String) (edge_id : Option String) :
    CBN × List PairEntry :=
  match edge_id with
  | none => (cbn, [])
  | some eid =>
    match alookup eid cbn.edges with
    | none => (cbn, [])
    | some edge => addQaEdgeCore cbn qa_id eid edge

/-- The node-evidence append of the `extracted_nodes` loop of
`add_qa_to_graph`: append the entry, bump `frequency`, recompute the
aggregates. -/
def qaNodeUpdate (qa_id : String) (d : NodeCandidate) (n : Node) : Node :=
  let ev := n.evidence ++
    [{ qa_id := qa_id, confidence := d.aggregate_confidence,
       importance := d.importance }]
  { n with evidence := ev,
           frequency := n.frequency + 1,
           aggregate_confidence := calculate_node_aggregate_confidence ev,
           importance := calculate_node_importance ev }

/-- One iteration of the `extracted_nodes` loop of `add_qa_to_graph`:
build the QA-history entry for the node, then (when the node exists and this
`qa_id` is new to it) append evidence, bump `frequency`, and recompute the
aggregates. -/
def addQaNodeStep (qa_id : String) (acc : CBN × List NodeEntry)
    (p : String × NodeCandidate) : CBN × List NodeEntry :=
  let cbn := acc.1
  let status :=
    match alookup p.1 cbn.nodes with
    | some n => n.status
    | none => "candidate"
  let ne : NodeEntry :=
    { node_id := p.1, label := p.2.label, confidence := p.2.aggregate_confidence,
      importance := p.2.importance, status := status }
  let entries := acc.2 ++ [ne]
  match alookup p.1 cbn.nodes with
  | none => (cbn, entries)
  | some node =>
    if node.evidence.any (fun e => e.qa_id = qa_id) then (cbn, entries)
    else ({ cbn with nodes := aupdate p.1 (qaNodeUpdate qa_id p.2) cbn.nodes }, entries)

/-- Python `add_qa_to_graph` (the deprecated `parsed_belief` argument is
unused by the source and omitted). -/
def add_qa_to_graph (cbn : CBN) (qa_pair : QAPair)
    (extracted_nodes : List (String × NodeCandidate)) (edge_id : Option String) : CBN :=
  let qa_id := resolveQaId cbn qa_pair
  let r1 := addQaEdgePath cbn qa_id edge_id
  let r2 := extracted_nodes.foldl (addQaNodeStep qa_id) (r1.1, [])
  let qa_entry : QAEntry :=
    { question := qa_pair.question, answer := qa_pair.answer,
      extracted_pairs := r1.2, extracted_nodes := r2.2 }
  { r2.1 with qa_history := aset qa_id qa_entry r2.1.qa_history }

/-! ## Concrete fixtures used by scenario and counterexample theorems -/

/-- A fresh candidate node with the engine's creation defaults. -/
def plainNode (lbl : String) : Node :=
  { label := lbl, aggregate_confidence := 0.5, evidence := [], incoming_edges := [],
    outgoing_edges := [], importance := 0.5, status := "candidate", frequency := 1,
    is_stance := false }

/-- A two-node graph with labels `a` and `b` and no edges. -/
def twoNodeCBN : CBN :=
  { nodes := [("n1", plainNode "a"), ("n2", plainNode "b")], edges := [],
    anchor_queue := [], edge_counter := 0, qa_history := [] }

/-- An edge candidate from `a` to `b` carrying no explanation. -/
def edgeDataNoExp : EdgeData :=
  { from_label := "a", to_label := "b", aggregate_confidence := some 0.5,
    strength := some 0.5, direction := some "positive", support_qas := some ["qa1"],
    explanation := none }

/-- The same edge candidate with a non-empty explanation. -/
def edgeDataExp : EdgeData := { edgeDataNoExp with explanation := some "because" }

/-- A graph holding a single anchor node (zero candidate nodes). -/
def anchorOnlyCBN : CBN :=
  { nodes := [("n1", { plainNode "stance node" with status := "anchor" })],
    edges := [], anchor_queue := ["n1"], edge_counter := 0, qa_history := [] }

/-- A keyed view of the node table under a projection of the node record
(used to track keys/labels and keys/statuses through the merge pass). -/
def nview {β : Type} (g : Node → β) (l : List (String × Node)) : List (String × β) :=
  l.map (fun p => (p.1, g p.2))

/-- A concrete edge between the given nodes (unit scores). -/
def fixtureEdge (src tgt : String) : Edge :=
  { source := src, target := tgt, aggregate_confidence := 1,
    evidence := [{ qa_id := "qa1", confidence := 1, original_modifier := 1 }],
    modifier := 1, source_label := "", target_label := "", explanation := "",
    direction := "positive", strength := 1 }

/-- Anchor-status versions of the two plain nodes (fixtures for the merge
pass: an anchor node short-circuits the promotion criteria). -/
def anchorNodeA : Node := { plainNode "a" with status := "anchor" }

/-- Second anchor node (label `b`). -/
def anchorNodeB : Node := { plainNode "b" with status := "anchor" }

/-- A two-node graph whose nodes are already anchors. -/
def anchorPairCBN : CBN :=
  { nodes := [("n1", anchorNodeA), ("n2", anchorNodeB)], edges := [],
    anchor_queue := ["n1", "n2"], edge_counter := 0, qa_history := [] }

/-- A graph with two parallel edges between its two nodes. -/
def twoEdgeCBN : CBN :=
  { nodes := [("n1", plainNode "a"), ("n2", plainNode "b")],
    edges := [("e1", fixtureEdge "n1" "n2"), ("e2", fixtureEdge "n1" "n2")],
    anchor_queue := [], edge_counter := 2, qa_history := [] }

/-! ## Anchor-queue invariant (claim C8) -/

/-- Graph invariant (d): `anchor_queue` lists exactly the ids of the nodes
whose status is `anchor`, with no duplicates. -/
def anchor_queue_exact (cbn : CBN) : Prop :=
  cbn.anchor_queue.Nodup ∧
  (∀ k ∈ cbn.anchor_queue,
    Option.map (fun n => n.status) (alookup k cbn.nodes) = some "anchor") ∧
  (∀ p ∈ cbn.nodes, p.2.status = "anchor" → p.1 ∈ cbn.anchor_queue)

/-- Auxiliary invariant: every stance node has status `anchor` (`app.py`
creates the single stance node with status `anchor` and seeds `anchor_queue`
with its id). -/
def stance_nodes_anchored (cbn : CBN) : Prop :=
  ∀ p ∈ cbn.nodes, p.2.is_stance = true → p.2.status = "anchor"

end CBNEngine

namespace CBNEngine

/-! ## C1: merge direction follows the ordered priority rules -/

/-- Helper: a pair of mirrored boolean-flag branches is one strict-difference
rule of the spec's rule table. -/
lemma rule_step_bool {β : Type} (b1 b2 : Bool) (sw kp nx : β) :
    (if b1 = true ∧ ¬ b2 = true then sw
     else if b2 = true ∧ ¬ b1 = true then kp else nx)
    = (if b1 ≠ b2 then (if b1 then sw else kp) else nx) := by
  cases b1 <;> cases b2 <;> simp

/-- Helper: a pair of mirrored decidable-proposition branches is one
strict-difference rule of the spec's rule table. -/
lemma rule_step_prop {β : Type} (p1 p2 : Prop) [Decidable p1] [Decidable p2]
    (sw kp nx : β) :
    (if p1 ∧ ¬ p2 then sw else if p2 ∧ ¬ p1 then kp else nx)
    = (if p1 ≠ p2 then (if p1 then sw else kp) else nx) := by
  by_cases h1 : p1 <;> by_cases h2 : p2 <;> simp_all

/-- Helper: a pair of mirrored strict-comparison branches is one
strict-difference rule of the spec's rule table. -/
lemma rule_step_ord {α β : Type} [LinearOrder α] (x1 x2 : α) (sw kp nx : β) :
    (if x1 > x2 then sw else if x2 > x1 then kp else nx)
    = (if x1 ≠ x2 then (if x1 > x2 then sw else kp) else nx) := by
  rcases lt_trichotomy x1 x2 with h | h | h
  · rw [if_neg (by exact fun hc => absurd h (not_lt_of_gt hc)), if_pos h,
        if_pos (ne_of_lt h), if_neg (by exact fun hc => absurd h (not_lt_of_gt hc))]
  · rw [if_neg (by simp [h]), if_neg (by simp [h]), if_neg (by simp [h])]
  · rw [if_pos h, if_pos (ne_of_gt h), if_pos h]

/-- Helper: the last rule of the chain (the default keeps the
first-encountered node as source, which is also the tie result). -/
lemma rule_step_last {α β : Type} [LinearOrder α] (x1 x2 : α) (sw kp : β) :
    (if x1 > x2 then sw else kp)
    = (if x1 ≠ x2 then (if x1 > x2 then sw else kp) else kp) := by
  by_cases h : x1 ≠ x2
  · rw [if_pos h]
  · rw [if_neg h, if_neg]
    simp only [ne_eq, not_not] at h
    simp [h]

/-- C1: the merge resolver's direction decision agrees with the spec's ordered
priority rule table (stance, anchor, frequency, importance, confidence; each
rule only on a strict difference; ties fall through; if all five rules tie the
first-encountered node is the source), and in particular a stance node with
frequency 1 is the target when matched against a non-stance node with
frequency 3. -/
theorem C1_merge_direction_priority_rules :
    (∀ (id1 id2 : String) (n1 n2 : Node),
      determine_merge_direction id1 id2 n1 n2 = spec_merge_direction id1 id2 n1 n2) ∧
    determine_merge_direction "A" "B" scenarioNodeA scenarioNodeB = ("A", "B") := by
  constructor
  · intro id1 id2 n1 n2
    unfold determine_merge_direction spec_merge_direction
    rw [rule_step_last n1.aggregate_confidence n2.aggregate_confidence (id2, id1) (id1, id2),
        rule_step_ord n1.importance n2.importance,
        rule_step_ord n1.frequency n2.frequency,
        rule_step_prop (n1.status = "anchor") (n2.status = "anchor"),
        rule_step_bool n1.is_stance n2.is_stance]
    by_cases hc : n1.aggregate_confidence ≠ n2.aggregate_confidence <;> simp [hc]
  · decide

/-! ## Association-list lemmas -/

lemma alookup_cons {κ α : Type} [DecidableEq κ] (k a : κ) (b : α)
    (rest : List (κ × α)) :
    alookup k ((a, b) :: rest) = if a = k then some b else alookup k rest := rfl

lemma aupdate_cons {κ α : Type} [DecidableEq κ] (k : κ) (f : α → α) (a : κ) (b : α)
    (rest : List (κ × α)) :
    aupdate k f ((a, b) :: rest)
      = (if a = k then (a, f b) else (a, b)) :: aupdate k f rest := by
  by_cases h : a = k <;> simp only [aupdate, List.map_cons, if_pos, if_neg, h, ite_true,
    ite_false, reduceIte]

lemma aerase_cons {κ α : Type} [DecidableEq κ] (k a : κ) (b : α)
    (rest : List (κ × α)) :
    aerase k ((a, b) :: rest)
      = if a = k then aerase k rest else (a, b) :: aerase k rest := by
  by_cases h : a = k <;> simp [aerase, h]

lemma alookup_aupdate_self {κ α : Type} [DecidableEq κ] (k : κ) (f : α → α)
    (l : List (κ × α)) : alookup k (aupdate k f l) = (alookup k l).map f := by
  induction l with
  | nil => rfl
  | cons p rest ih =>
      obtain ⟨a, b⟩ := p
      rw [aupdate_cons]
      by_cases h : a = k
      · rw [if_pos h, alookup_cons, if_pos h, alookup_cons, if_pos h]
        rfl
      · rw [if_neg h, alookup_cons, if_neg h, alookup_cons, if_neg h, ih]

lemma alookup_aupdate_ne {κ α : Type} [DecidableEq κ] {k1 k : κ} (h : k1 ≠ k)
    (f : α → α) (l : List (κ × α)) : alookup k (aupdate k1 f l) = alookup k l := by
  induction l with
  | nil => rfl
  | cons p rest ih =>
      obtain ⟨a, b⟩ := p
      rw [aupdate_cons]
      by_cases hp : a = k1
      · have hk : a ≠ k := by rw [hp]; exact h
        rw [if_pos hp, alookup_cons, if_neg hk, alookup_cons, if_neg hk, ih]
      · by_cases hk : a = k
        · rw [if_neg hp, alookup_cons, if_pos hk, alookup_cons, if_pos hk]
        · rw [if_neg hp, alookup_cons, if_neg hk, alookup_cons, if_neg hk, ih]

lemma alookup_aerase_self {κ α : Type} [DecidableEq κ] (k : κ) (l : List (κ × α)) :
    alookup k (aerase k l) = none := by
  induction l with
  | nil => rfl
  | cons p rest ih =>
      obtain ⟨a, b⟩ := p
      rw [aerase_cons]
      by_cases h : a = k
      · rw [if_pos h, ih]
      · rw [if_neg h, alookup_cons, if_neg h, ih]

lemma alookup_aerase_ne {κ α : Type} [DecidableEq κ] {k1 k : κ} (h : k1 ≠ k)
    (l : List (κ × α)) : alookup k (aerase k1 l) = alookup k l := by
  induction l with
  | nil => rfl
  | cons p rest ih =>
      obtain ⟨a, b⟩ := p
      rw [aerase_cons]
      by_cases hp : a = k1
      · have hk : a ≠ k := by rw [hp]; exact h
        rw [if_pos hp, ih, alookup_cons, if_neg hk]
      · by_cases hk : a = k
        · rw [if_neg hp, alookup_cons, if_pos hk, alookup_cons, if_pos hk]
        · rw [if_neg hp, alookup_cons, if_neg hk, alookup_cons, if_neg hk, ih]

lemma alookup_append {κ α : Type} [DecidableEq κ] (k : κ) (l1 l2 : List (κ × α)) :
    alookup k (l1 ++ l2)
      = match alookup k l1 with
        | some v => some v
        | none => alookup k l2 := by
  induction l1 with
  | nil => rfl
  | cons p rest ih =>
      obtain ⟨a, b⟩ := p
      rw [List.cons_append, alookup_cons, alookup_cons]
      by_cases hp : a = k
      · rw [if_pos hp, if_pos hp]
      · rw [if_neg hp, if_neg hp, ih]

lemma alookup_aset_self {κ α : Type} [DecidableEq κ] (k : κ) (v : α)
    (l : List (κ × α)) : alookup k (aset k v l) = some v := by
  unfold aset
  by_cases h : (alookup k l).isSome
  · rw [if_pos h, alookup_aupdate_self]
    rcases Option.isSome_iff_exists.mp h with ⟨w, hw⟩
    simp [hw]
  · rw [if_neg h, alookup_append, Option.not_isSome_iff_eq_none.mp h, alookup_cons,
      if_pos rfl]

lemma alookup_aset_ne {κ α : Type} [DecidableEq κ] {k1 k : κ} (h : k1 ≠ k) (v : α)
    (l : List (κ × α)) : alookup k (aset k1 v l) = alookup k l := by
  unfold aset
  by_cases hs : (alookup k1 l).isSome
  · rw [if_pos hs, alookup_aupdate_ne h]
  · rw [if_neg hs, alookup_append]
    cases hl : alookup k l with
    | some w => rfl
    | none => simp only [alookup_cons, if_neg h, alookup]

lemma alookup_mem {κ α : Type} [DecidableEq κ] {k : κ} {v : α} {l : List (κ × α)}
    (h : alookup k l = some v) : (k, v) ∈ l := by
  induction l with
  | nil => exact absurd h (by simp [alookup])
  | cons p rest ih =>
      obtain ⟨a, b⟩ := p
      rw [alookup_cons] at h
      by_cases hp : a = k
      · rw [if_pos hp] at h
        subst hp
        have hb := Option.some_inj.mp h
        subst hb
        exact List.mem_cons_self _ _
      · rw [if_neg hp] at h
        exact List.mem_cons_of_mem _ (ih h)

lemma alookup_isSome_iff_mem_keys {κ α : Type} [DecidableEq κ] (k : κ)
    (l : List (κ × α)) : (alookup k l).isSome ↔ k ∈ l.map Prod.fst := by
  induction l with
  | nil => simp [alookup]
  | cons p rest ih =>
      obtain ⟨a, b⟩ := p
      rw [alookup_cons]
      by_cases hp : a = k
      · simp [hp]
      · rw [if_neg hp]
        simp only [List.map_cons, List.mem_cons]
        rw [ih]
        constructor
        · exact fun hm => Or.inr hm
        · rintro (hm | hm)
          · exact absurd hm.symm hp
          · exact hm

lemma mem_alookup {κ α : Type} [DecidableEq κ] {k : κ} {v : α} {l : List (κ × α)}
    (hnd : (l.map Prod.fst).Nodup) (h : (k, v) ∈ l) : alookup k l = some v := by
  induction l with
  | nil => exact absurd h (by simp)
  | cons p rest ih =>
      obtain ⟨a, b⟩ := p
      simp only [List.map_cons, List.nodup_cons] at hnd
      rcases List.mem_cons.mp h with h1 | h1
      · rw [alookup_cons]
        have hk : a = k := (Prod.mk.injEq .. ▸ h1.symm).1
        rw [if_pos hk]
        have hv : v = b := (Prod.mk.injEq .. ▸ h1).2
        rw [hv]
      · have hk : a ≠ k := by
          intro hc
          exact hnd.1 (hc ▸ (List.mem_map.mpr ⟨(k, v), h1, rfl⟩))
        rw [alookup_cons, if_neg hk]
        exact ih hnd.2 h1

/-! ## add_edge unfolding lemmas -/

lemma addEdgeCore_edges (cbn : CBN) (ed : EdgeData) (f t : String) :
    (addEdgeCore cbn ed f t).edges
      = aset ("e" ++ toString (cbn.edge_counter + 1)) (edgeFromData ed f t) cbn.edges := by
  unfold addEdgeCore
  by_cases h : ed.explanation.getD "" ≠ "" <;> simp [h]

lemma add_edge_some {cbn : CBN} {ed : EdgeData} {eid : String}
    (h : (add_edge cbn ed).2 = some eid) :
    eid = "e" ++ toString (cbn.edge_counter + 1) ∧
    ∃ f t, ¬ (f = "" ∨ t = "") ∧
      (add_edge cbn ed).1 = addEdgeCore cbn ed f t := by
  unfold add_edge at h ⊢
  rcases hf : findEndpointIds cbn (lowerString ed.from_label) (lowerString ed.to_label)
    with ⟨o1, o2⟩
  rw [hf] at h
  cases o1 with
  | none => simp at h
  | some f =>
      cases o2 with
      | none => simp at h
      | some t =>
          have h2 : (if f = "" ∨ t = "" then ((cbn, none) : CBN × Option String)
              else (addEdgeCore cbn ed f t,
                some ("e" ++ toString (cbn.edge_counter + 1)))).2 = some eid := h
          by_cases hft : f = "" ∨ t = ""
          · rw [if_pos hft] at h2
            simp at h2
          · rw [if_neg hft] at h2
            refine ⟨(Option.some_inj.mp h2).symm, f, t, hft, ?_⟩
            show (if f = "" ∨ t = "" then ((cbn, none) : CBN × Option String)
              else (addEdgeCore cbn ed f t,
                some ("e" ++ toString (cbn.edge_counter + 1)))).1 = addEdgeCore cbn ed f t
            rw [if_neg hft]

/-! ## C2: aggregate confidence -/

/-- C2 counterexample: the edge-evidence aggregator returns `0.0`, not the
claimed default `0.5`, on an empty evidence list. -/
theorem C2_counterexample_empty_edge_evidence :
    calculate_aggregate_confidence [] ≠ 0.5 := by
  norm_num [calculate_aggregate_confidence]

/-- C2 (amended): aggregate confidence is the arithmetic mean of the evidence
confidences for a non-empty list, both for edges and for nodes; the empty-list
default is 0.5 for node evidence but 0.0 for edge evidence; an edge evidence
list with confidences 0.6 and 0.8 yields exactly 0.7; and the edge created by
`add_edge` satisfies `aggregate_confidence = mean of its evidence`. -/
theorem C2_aggregate_confidence_is_mean :
    (∀ l : List EdgeEvidence, l ≠ [] →
      calculate_aggregate_confidence l
        = (l.map (fun e => e.confidence)).sum / (l.length : ℚ)) ∧
    calculate_aggregate_confidence [] = 0 ∧
    (∀ l : List NodeEvidence, l ≠ [] →
      calculate_node_aggregate_confidence l
        = (l.map (fun e => e.confidence)).sum / (l.length : ℚ)) ∧
    calculate_node_aggregate_confidence [] = 0.5 ∧
    calculate_aggregate_confidence
      [{ qa_id := "qa1", confidence := 0.6, original_modifier := 1 },
       { qa_id := "qa2", confidence := 0.8, original_modifier := 1 }] = 0.7 ∧
    (∀ (cbn : CBN) (ed : EdgeData) (eid : String),
      (add_edge cbn ed).2 = some eid →
      ∃ e, alookup eid (add_edge cbn ed).1.edges = some e ∧
        e.aggregate_confidence = calculate_aggregate_confidence e.evidence) := by
  refine ⟨?_, rfl, ?_, rfl, by norm_num [calculate_aggregate_confidence], ?_⟩
  · intro l h
    simp [calculate_aggregate_confidence, h]
  · intro l h
    simp [calculate_node_aggregate_confidence, h]
  · intro cbn ed eid h
    obtain ⟨heid, f, t, hft, hcore⟩ := add_edge_some h
    refine ⟨edgeFromData ed f t, ?_, ?_⟩
    · rw [hcore, addEdgeCore_edges, heid]
      exact alookup_aset_self _ _ _
    · simp [edgeFromData, calculate_aggregate_confidence]

/-- C2 witness: the guarded clauses instantiated at concrete inputs. -/
theorem C2_aggregate_confidence_is_mean_witness :
    calculate_aggregate_confidence
       [{ qa_id := "q", confidence := 0.4, original_modifier := 1 }]
      = (([{ qa_id := "q", confidence := 0.4, original_modifier := 1 }] :
          List EdgeEvidence).map (fun e => e.confidence)).sum / 1 ∧
    calculate_node_aggregate_confidence
       [{ qa_id := "q", confidence := 0.4, importance := 0.2 }]
      = (([{ qa_id := "q", confidence := 0.4, importance := 0.2 }] :
          List NodeEvidence).map (fun e => e.confidence)).sum / 1 ∧
    (∃ e, alookup "e1" (add_edge twoNodeCBN edgeDataNoExp).1.edges = some e ∧
      e.aggregate_confidence = calculate_aggregate_confidence e.evidence) := by
  refine ⟨?_, ?_, ?_⟩
  · have h := C2_aggregate_confidence_is_mean.1
      [{ qa_id := "q", confidence := 0.4, original_modifier := 1 }] (by decide)
    simpa using h
  · have h := C2_aggregate_confidence_is_mean.2.2.1
      [{ qa_id := "q", confidence := 0.4, importance := 0.2 }] (by decide)
    simpa using h
  · exact C2_aggregate_confidence_is_mean.2.2.2.2.2 twoNodeCBN edgeDataNoExp "e1" (by decide)

/-! ## C3: add_edge leaves dangling node references without an explanation -/

/-- C3 (code bug witness): on a two-node graph, `add_edge` with an edge
candidate carrying no explanation creates edge `e1` between `n1` and `n2` but
leaves both nodes' `incoming_edges`/`outgoing_edges` empty — the reference
update sits inside the `if edge_data.get('explanation'):` logging block.  With
a non-empty explanation the very same candidate does update both lists. -/
theorem C3_add_edge_dangling_reference_evaluation :
    (add_edge twoNodeCBN edgeDataNoExp).2 = some "e1" ∧
    ((alookup "e1" (add_edge twoNodeCBN edgeDataNoExp).1.edges).map
      (fun e => (e.source, e.target)) = some ("n1", "n2")) ∧
    ((add_edge twoNodeCBN edgeDataNoExp).1.nodes.map
      (fun p => (p.1, p.2.incoming_edges, p.2.outgoing_edges))
      = twoNodeCBN.nodes.map (fun p => (p.1, p.2.incoming_edges, p.2.outgoing_edges))) ∧
    ((alookup "n1" (add_edge twoNodeCBN edgeDataNoExp).1.nodes).map
      (fun n => n.outgoing_edges) = some []) ∧
    ((alookup "n2" (add_edge twoNodeCBN edgeDataNoExp).1.nodes).map
      (fun n => n.incoming_edges) = some []) ∧
    ((alookup "n1" (add_edge twoNodeCBN edgeDataExp).1.nodes).map
      (fun n => n.outgoing_edges) = some ["e1"]) ∧
    ((alookup "n2" (add_edge twoNodeCBN edgeDataExp).1.nodes).map
      (fun n => n.incoming_edges) = some ["e1"]) := by
  decide

/-! ## C6: structural convergence counter -/

/-- C6 counterexample: starting from a reset counter, three consecutive
evaluation rounds with zero candidate nodes still return `false` (the third
round only raises the counter to 3; the check `stable_rounds >= 3` precedes
the increment), contradicting the claim that the component is true exactly
after 3 consecutive zero-candidate rounds. -/
theorem C6_counterexample_three_rounds_still_false :
    candidate_count anchorOnlyCBN = 0 ∧
    (structure_convergence_run 0
      [candidate_count anchorOnlyCBN, candidate_count anchorOnlyCBN,
       candidate_count anchorOnlyCBN]).2 = false := by
  decide

/-- Helper: a run over `n` consecutive zero-candidate rounds starting from
counter `r` ends `true` exactly when `r + n ≥ 4`. -/
lemma structure_convergence_run_zeros (n r : Nat) (h : 1 ≤ n) :
    ((structure_convergence_run r (List.replicate n 0)).2 = true) ↔ r + n ≥ 4 := by
  induction n generalizing r with
  | zero => omega
  | succ m ih =>
      by_cases hm : m = 0
      · subst hm
        simp only [List.replicate, structure_convergence_run, structure_convergence_step]
        by_cases hr : r ≥ 3 <;> simp [hr]
      · have hm1 : 1 ≤ m := Nat.one_le_iff_ne_zero.mpr hm
        have hrep : List.replicate (m + 1) 0 = 0 :: List.replicate m 0 := rfl
        rw [hrep]
        simp only [structure_convergence_run]
        have hne : ¬ (List.replicate m 0).isEmpty = true := by
          simp [List.isEmpty_iff, hm]
        rw [if_neg hne]
        unfold structure_convergence_step
        by_cases hr : r ≥ 3
        · rw [if_pos (by exact ⟨rfl, hr⟩)]
          rw [ih r hm1]
          omega
        · rw [if_neg (by intro hc; exact hr hc.2), if_neg (by simp)]
          rw [ih (r + 1) hm1]
          omega

/-- C6 (amended): the structural-convergence component is true at an
evaluation round exactly when that round sees zero candidate nodes and the
stable-rounds counter already reached 3 — i.e., starting from a reset counter
it becomes true on the 4th consecutive zero-candidate round, not the 3rd; the
counter does reset to 0 whenever any candidate node exists. -/
theorem C6_structure_convergence_needs_four_rounds :
    (∀ r c, (structure_convergence_step r c).2 = true ↔ (c = 0 ∧ r ≥ 3)) ∧
    (∀ r c, c > 0 → structure_convergence_step r c = (0, false)) ∧
    (∀ n, 1 ≤ n →
      (((structure_convergence_run 0 (List.replicate n 0)).2 = true) ↔ n ≥ 4)) := by
  refine ⟨?_, ?_, ?_⟩
  · intro r c
    unfold structure_convergence_step
    by_cases h1 : c = 0 ∧ r ≥ 3
    · simp [h1]
    · rw [if_neg h1]
      by_cases h2 : c > 0 <;> simp [h2] <;> omega
  · intro r c h
    unfold structure_convergence_step
    rw [if_neg (by omega), if_pos h]
  · intro n hn
    simpa using structure_convergence_run_zeros n 0 hn

/-- C6 witness: the amended statement evaluated on concrete rounds. -/
theorem C6_structure_convergence_needs_four_rounds_witness :
    ((structure_convergence_step 2 0).2 = true ↔ (0 = 0 ∧ 2 ≥ 3)) ∧
    structure_convergence_step 1 7 = (0, false) ∧
    (((structure_convergence_run 0 (List.replicate 4 0)).2 = true) ↔ 4 ≥ 4) := by
  exact ⟨C6_structure_convergence_needs_four_rounds.1 2 0,
    C6_structure_convergence_needs_four_rounds.2.1 1 7 (by decide),
    C6_structure_convergence_needs_four_rounds.2.2 4 (by decide)⟩

/-! ## C7: phase machine -/

/-- C7: from `node_discovery` (step 1) the controller moves to
`relationship_qualification` (step 2) exactly when the anchor queue has at
least 5 entries, and step 2 is absorbing: every later evaluation stays at 2
even if the queue shrinks below 5 — as in the §8 scenario where the queue
grows to 5 and later drops to 3. -/
theorem C7_step_transition_monotone :
    (∀ q : List String, get_next_step 1 q = 2 ↔ q.length ≥ 5) ∧
    (∀ q : List String, q.length < 5 → get_next_step 1 q = 1) ∧
    (∀ q : List String, get_next_step 2 q = 2) ∧
    get_next_step (get_next_step 1 ["a1", "a2", "a3", "a4", "a5"]) ["a1", "a2", "a3"] = 2 := by
  refine ⟨?_, ?_, ?_, by decide⟩
  · intro q
    unfold get_next_step
    by_cases h : q.length ≥ 5 <;> simp [h]
  · intro q h
    unfold get_next_step
    rw [if_neg (by omega)]
  · intro q
    unfold get_next_step
    rw [if_neg (by simp)]

/-- C7 witness: the guarded clause evaluated on a concrete short queue. -/
theorem C7_step_transition_monotone_witness :
    get_next_step 1 ["a1", "a2"] = 1 :=
  C7_step_transition_monotone.2.1 ["a1", "a2"] (by decide)

/-! ## Core-equation lemmas for the merge machinery -/

lemma merge_edges_eq {cbn : CBN} {s t : String} {es et : Edge}
    (hes : alookup s cbn.edges = some es) (het : alookup t cbn.edges = some et) :
    merge_edges cbn s t = mergeEdgesCore cbn es s t := by
  unfold merge_edges
  rw [hes, het]

lemma mergeEdgesCore_edges (cbn : CBN) (se : Edge) (s t : String) :
    (mergeEdgesCore cbn se s t).edges
      = aerase s (aupdate t (mergedEdgeUpdate se) cbn.edges) := rfl

lemma merge_nodes_eq {cbn : CBN} {s t : String} {sn tn : Node}
    (hsn : alookup s cbn.nodes = some sn) (htn : alookup t cbn.nodes = some tn) :
    merge_nodes cbn s t = mergeNodesCore cbn sn s t := by
  unfold merge_nodes
  rw [hsn, htn]

lemma addQaEdgePath_eq {cbn : CBN} {eid : String} {e0 : Edge} (qa_id : String)
    (h0 : alookup eid cbn.edges = some e0) :
    addQaEdgePath cbn qa_id (some eid) = addQaEdgeCore cbn qa_id eid e0 := by
  unfold addQaEdgePath
  show (match alookup eid cbn.edges with
        | none => (cbn, [])
        | some edge => addQaEdgeCore cbn qa_id eid edge)
      = addQaEdgeCore cbn qa_id eid e0
  rw [h0]

/-! ## C9: edge modifier aggregation -/

/-- Helper: on the two-node fixture, `add_edge` stores the freshly created
edge under `e1`. -/
lemma add_edge_fixture_lookup :
    alookup "e1" (add_edge twoNodeCBN edgeDataNoExp).1.edges
      = some (edgeFromData edgeDataNoExp "n1" "n2") := by
  have hfind : findEndpointIds twoNodeCBN (lowerString edgeDataNoExp.from_label)
      (lowerString edgeDataNoExp.to_label) = (some "n1", some "n2") := by decide
  show alookup "e1"
    (match findEndpointIds twoNodeCBN (lowerString edgeDataNoExp.from_label)
        (lowerString edgeDataNoExp.to_label) with
      | (some from_node_id, some to_node_id) =>
        if from_node_id = "" ∨ to_node_id = "" then (twoNodeCBN, none)
        else (addEdgeCore twoNodeCBN edgeDataNoExp from_node_id to_node_id,
              some ("e" ++ toString (twoNodeCBN.edge_counter + 1)))
      | _ => (twoNodeCBN, none)).1.edges = some (edgeFromData edgeDataNoExp "n1" "n2")
  rw [hfind]
  show alookup "e1" (if ("n1" : String) = "" ∨ ("n2" : String) = ""
      then (twoNodeCBN, (none : Option String))
      else (addEdgeCore twoNodeCBN edgeDataNoExp "n1" "n2",
            some ("e" ++ toString (twoNodeCBN.edge_counter + 1)))).1.edges
    = some (edgeFromData edgeDataNoExp "n1" "n2")
  rw [if_neg (by decide), addEdgeCore_edges]
  exact alookup_aset_self _ _ _

/-- C9 counterexample: the edge just created by `add_edge` (strength 0.5,
direction positive, confidence 0.5) stores `modifier = 0.25` — the
direction-signed strength scaled by the confidence — while the
confidence-weighted average of its evidence is `0.5`, so the stored modifier
is not the claimed weighted average at creation time. -/
theorem C9_counterexample_creation_modifier :
    (alookup "e1" (add_edge twoNodeCBN edgeDataNoExp).1.edges).map
      (fun e => e.modifier) = some 0.25 ∧
    (alookup "e1" (add_edge twoNodeCBN edgeDataNoExp).1.edges).map
      (fun e => calculate_aggregate_modifier e.evidence) = some 0.5 ∧
    (0.25 : ℚ) ≠ 0.5 := by
  rw [add_edge_fixture_lookup]
  refine ⟨?_, ?_, by norm_num⟩
  · show some (edgeFromData edgeDataNoExp "n1" "n2").modifier = some 0.25
    norm_num [edgeFromData, edgeDataNoExp]
  · show some (calculate_aggregate_modifier
      (edgeFromData edgeDataNoExp "n1" "n2").evidence) = some 0.5
    norm_num [edgeFromData, edgeDataNoExp, calculate_aggregate_modifier]

/-- C9 (amended): at creation `add_edge` stores
`modifier = original_modifier * confidence` (the direction-signed strength
scaled by confidence), with a single evidence entry holding the raw
direction-signed strength as `original_modifier`; every later evidence-list
mutation (edge merge, QA evidence ingestion) recomputes
`modifier = Σ(original_modifier·confidence)/Σ(confidence)` over the edge's
evidence, which is `0.0` for an empty list. -/
theorem C9_modifier_aggregation :
    (∀ (cbn : CBN) (ed : EdgeData) (eid : String),
      (add_edge cbn ed).2 = some eid →
      ∃ e, alookup eid (add_edge cbn ed).1.edges = some e ∧
        e.modifier
          = (if ed.direction.getD "positive" = "positive" then ed.strength.getD 0.7
             else -(ed.strength.getD 0.7)) * ed.aggregate_confidence.getD 0.7 ∧
        e.evidence.map (fun ev => ev.original_modifier)
          = [if ed.direction.getD "positive" = "positive" then ed.strength.getD 0.7
             else -(ed.strength.getD 0.7)] ∧
        e.evidence.map (fun ev => ev.confidence) = [ed.aggregate_confidence.getD 0.7]) ∧
    (∀ l : List EdgeEvidence, l ≠ [] → 0 < (l.map (fun e => e.confidence)).sum →
      calculate_aggregate_modifier l
        = (l.map (fun e => e.original_modifier * e.confidence)).sum
            / (l.map (fun e => e.confidence)).sum) ∧
    calculate_aggregate_modifier [] = 0 ∧
    (∀ (cbn : CBN) (s t : String), s ≠ t →
      (alookup s cbn.edges).isSome → (alookup t cbn.edges).isSome →
      ∃ e, alookup t (merge_edges cbn s t).edges = some e ∧
        e.modifier = calculate_aggregate_modifier e.evidence ∧
        e.aggregate_confidence = calculate_aggregate_confidence e.evidence) ∧
    (∀ (cbn : CBN) (qa_id eid : String) (e0 : Edge),
      alookup eid cbn.edges = some e0 →
      ¬ (e0.source = "" ∨ e0.target = "") →
      ¬ (e0.evidence.any (fun ev => ev.qa_id = qa_id)) = true →
      ∃ e, alookup eid (addQaEdgePath cbn qa_id (some eid)).1.edges = some e ∧
        e.modifier = calculate_aggregate_modifier e.evidence ∧
        e.aggregate_confidence = calculate_aggregate_confidence e.evidence) := by
  refine ⟨?_, ?_, rfl, ?_, ?_⟩
  · intro cbn ed eid h
    obtain ⟨heid, f, t, hft, hcore⟩ := add_edge_some h
    refine ⟨edgeFromData ed f t, ?_, ?_, ?_, ?_⟩
    · rw [hcore, addEdgeCore_edges, heid]
      exact alookup_aset_self _ _ _
    · simp [edgeFromData]
    · simp [edgeFromData]
    · simp [edgeFromData]
  · intro l hne hpos
    unfold calculate_aggregate_modifier
    rw [if_neg (by simpa [List.isEmpty_iff] using hne), if_pos hpos]
  · intro cbn s t hst hs ht
    rcases Option.isSome_iff_exists.mp hs with ⟨es, hes⟩
    rcases Option.isSome_iff_exists.mp ht with ⟨et, het⟩
    refine ⟨mergedEdgeUpdate es et, ?_, rfl, rfl⟩
    rw [merge_edges_eq hes het, mergeEdgesCore_edges,
      alookup_aerase_ne hst, alookup_aupdate_self, het]
    rfl
  · intro cbn qa_id eid e0 h0 hsr hqa
    rw [addQaEdgePath_eq qa_id h0]
    unfold addQaEdgeCore
    rw [if_neg hsr]
    simp only [if_neg hqa]
    refine ⟨qaEdgeUpdate qa_id e0.aggregate_confidence e0.modifier e0, ?_, rfl, rfl⟩
    show alookup eid
      (aupdate eid (qaEdgeUpdate qa_id e0.aggregate_confidence e0.modifier) cbn.edges)
      = some (qaEdgeUpdate qa_id e0.aggregate_confidence e0.modifier e0)
    rw [alookup_aupdate_self, h0]
    rfl

/-! ## Promotion lemmas (used by C4 and the queue invariant) -/

/-- Helper: one promotion step either leaves the entry and queue unchanged, or
flips a candidate to anchor and appends its id (only below the cap). -/
lemma promoteStep_cases (q : List String) (p : String × Node) :
    promoteStep q p = (p, q) ∨
    (p.2.status = "candidate" ∧ p.1 ∉ q ∧ q.length < max_anchors ∧
     promoteStep q p = ((p.1, { p.2 with status := "anchor" }), q ++ [p.1])) := by
  unfold promoteStep
  by_cases h1 : p.2.status ≠ "candidate"
  · rw [if_pos h1]
    exact Or.inl rfl
  · rw [if_neg h1]
    by_cases h2 : (p.2.frequency ≥ 2 ∨ (p.2.importance > 0.85 ∧ p.2.aggregate_confidence > 0.85)
        ∨ p.2.incoming_edges.length + p.2.outgoing_edges.length > 0)
        ∧ p.1 ∉ q ∧ q.length < max_anchors
    · rw [if_pos h2]
      exact Or.inr ⟨not_not.mp h1, h2.2.1, h2.2.2, rfl⟩
    · rw [if_neg h2]
      exact Or.inl rfl

/-- Helper: a promotion step never changes the entry's key. -/
lemma promoteStep_key (q : List String) (p : String × Node) :
    (promoteStep q p).1.1 = p.1 := by
  rcases promoteStep_cases q p with h | ⟨_, _, _, h⟩ <;> rw [h]

/-- Helper: a promotion step fixes entries that are already anchors. -/
lemma promoteStep_anchor_fixed (q : List String) (p : String × Node)
    (h : p.2.status = "anchor") : promoteStep q p = (p, q) := by
  unfold promoteStep
  rw [if_pos (by rw [h]; exact fun hc => absurd hc (by decide))]

/-- Helper: the promotion pass keeps every node stored under its key; an
anchor node is kept unchanged. -/
lemma promoteList_anchor_fixed : ∀ (l : List (String × Node)) (q : List String)
    (id : String) (n : Node), alookup id l = some n → n.status = "anchor" →
    alookup id (promoteList l q).1 = some n
  | [], _, _, _, h, _ => by exact absurd h (by simp [alookup])
  | p :: rest, q, id, n, h, ha => by
      obtain ⟨k0, n0⟩ := p
      rw [alookup_cons] at h
      show alookup id ((promoteStep q (k0, n0)).1 :: (promoteList rest (promoteStep q (k0, n0)).2).1) = some n
      by_cases hk : k0 = id
      · rw [if_pos hk] at h
        have hn : n0 = n := Option.some_inj.mp h
        subst hn
        rw [promoteStep_anchor_fixed q (k0, n0) ha]
        rw [alookup_cons, if_pos hk]
      · rw [if_neg hk] at h
        rcases hs : promoteStep q (k0, n0) with ⟨p', q'⟩
        have hkey : p'.1 = k0 := by
          have := promoteStep_key q (k0, n0)
          rw [hs] at this
          exact this
        obtain ⟨a, b⟩ := p'
        rw [alookup_cons]
        simp only at hkey
        rw [if_neg (by rw [hkey]; exact hk)]
        exact promoteList_anchor_fixed rest q' id n h ha

/-- Helper: the promotion pass respects the anchor cap. -/
lemma promoteList_cap : ∀ (l : List (String × Node)) (q : List String),
    q.length ≤ max_anchors → (promoteList l q).2.length ≤ max_anchors
  | [], _, h => h
  | p :: rest, q, h => by
      show (promoteList rest (promoteStep q p).2).2.length ≤ max_anchors
      rcases promoteStep_cases q p with hs | ⟨_, _, hlen, hs⟩
      · rw [hs]
        exact promoteList_cap rest q h
      · rw [hs]
        exact promoteList_cap rest (q ++ [p.1]) (by simp; omega)

/-- C4: a candidate node (not already queued) is promoted at its evaluation
point exactly when it meets one of the criteria (frequency ≥ 2, or
importance > 0.85 and aggregate_confidence > 0.85, or at least one incident
edge) and the queue is below `max_anchors` (25); promotion appends the id to
the queue; anchor status is never reverted by the promotion pass; and the
queue never exceeds the cap. -/
theorem C4_promotion_criteria_and_cap :
    (∀ (q : List String) (id : String) (n : Node),
      n.status = "candidate" → id ∉ q →
      (((promoteStep q (id, n)).1.2.status = "anchor") ↔
        ((n.frequency ≥ 2 ∨ (n.importance > 0.85 ∧ n.aggregate_confidence > 0.85) ∨
          n.incoming_edges.length + n.outgoing_edges.length > 0) ∧
         q.length < max_anchors))) ∧
    (∀ (q : List String) (id : String) (n : Node),
      n.status = "candidate" → id ∉ q →
      ((promoteStep q (id, n)).1.2.status = "anchor" →
        promoteStep q (id, n) = ((id, { n with status := "anchor" }), q ++ [id]))) ∧
    (∀ (cbn : CBN) (id : String) (n : Node),
      alookup id cbn.nodes = some n → n.status = "anchor" →
      alookup id (check_node_promotion cbn).nodes = some n) ∧
    (∀ cbn : CBN, cbn.anchor_queue.length ≤ max_anchors →
      (check_node_promotion cbn).anchor_queue.length ≤ max_anchors) := by
  have hstep : ∀ (q : List String) (id : String) (n : Node),
      n.status = "candidate" → id ∉ q →
      (((n.frequency ≥ 2 ∨ (n.importance > 0.85 ∧ n.aggregate_confidence > 0.85) ∨
          n.incoming_edges.length + n.outgoing_edges.length > 0) ∧
        q.length < max_anchors) →
        promoteStep q (id, n) = ((id, { n with status := "anchor" }), q ++ [id])) ∧
      (¬ ((n.frequency ≥ 2 ∨ (n.importance > 0.85 ∧ n.aggregate_confidence > 0.85) ∨
          n.incoming_edges.length + n.outgoing_edges.length > 0) ∧
        q.length < max_anchors) →
        promoteStep q (id, n) = ((id, n), q)) := by
    intro q id n hst hq
    constructor
    · intro hc
      unfold promoteStep
      rw [if_neg (by simp [hst])]
      rw [if_pos (by exact ⟨hc.1, hq, hc.2⟩)]
    · intro hc
      unfold promoteStep
      rw [if_neg (by simp [hst])]
      rw [if_neg (by rintro ⟨h1, _, h3⟩; exact hc ⟨h1, h3⟩)]
  refine ⟨?_, ?_, ?_, ?_⟩
  · intro q id n hst hq
    constructor
    · intro hp
      by_cases hc : (n.frequency ≥ 2 ∨ (n.importance > 0.85 ∧ n.aggregate_confidence > 0.85) ∨
          n.incoming_edges.length + n.outgoing_edges.length > 0) ∧ q.length < max_anchors
      · exact hc
      · rw [(hstep q id n hst hq).2 hc] at hp
        rw [hst] at hp
        exact absurd hp (by decide)
    · intro hc
      rw [(hstep q id n hst hq).1 hc]
  · intro q id n hst hq hp
    by_cases hc : (n.frequency ≥ 2 ∨ (n.importance > 0.85 ∧ n.aggregate_confidence > 0.85) ∨
        n.incoming_edges.length + n.outgoing_edges.length > 0) ∧ q.length < max_anchors
    · exact (hstep q id n hst hq).1 hc
    · rw [(hstep q id n hst hq).2 hc] at hp
      rw [hst] at hp
      exact absurd hp (by decide)
  · intro cbn id n h ha
    exact promoteList_anchor_fixed cbn.nodes cbn.anchor_queue id n h ha
  · intro cbn h
    exact promoteList_cap cbn.nodes cbn.anchor_queue h

/-- C4 witness: the promotion clauses instantiated on a concrete candidate
node with two incident edges, an empty queue, and the single-anchor graph. -/
theorem C4_promotion_criteria_and_cap_witness :
    (((promoteStep [] ("n9", { plainNode "x" with incoming_edges := ["e1"] })).1.2.status
        = "anchor") ↔
      ((({ plainNode "x" with incoming_edges := ["e1"] } : Node).frequency ≥ 2 ∨
        (({ plainNode "x" with incoming_edges := ["e1"] } : Node).importance > 0.85 ∧
         ({ plainNode "x" with incoming_edges := ["e1"] } : Node).aggregate_confidence > 0.85) ∨
        ({ plainNode "x" with incoming_edges := ["e1"] } : Node).incoming_edges.length +
          ({ plainNode "x" with incoming_edges := ["e1"] } : Node).outgoing_edges.length > 0) ∧
       ([] : List String).length < max_anchors)) ∧
    (alookup "n1" (check_node_promotion anchorOnlyCBN).nodes
      = some { plainNode "stance node" with status := "anchor" }) ∧
    (check_node_promotion anchorOnlyCBN).anchor_queue.length ≤ max_anchors := by
  refine ⟨?_, ?_, ?_⟩
  · exact C4_promotion_criteria_and_cap.1 [] "n9"
      { plainNode "x" with incoming_edges := ["e1"] } (by decide) (by decide)
  · exact C4_promotion_criteria_and_cap.2.2.1 anchorOnlyCBN "n1"
      { plainNode "stance node" with status := "anchor" } rfl rfl
  · exact C4_promotion_criteria_and_cap.2.2.2 anchorOnlyCBN (by decide)

/-- C9 witness: the amended clauses instantiated at concrete inputs. -/
theorem C9_modifier_aggregation_witness :
    (∃ e, alookup "e1" (add_edge twoNodeCBN edgeDataNoExp).1.edges = some e ∧
      e.modifier
        = (if edgeDataNoExp.direction.getD "positive" = "positive"
           then edgeDataNoExp.strength.getD 0.7
           else -(edgeDataNoExp.strength.getD 0.7))
            * edgeDataNoExp.aggregate_confidence.getD 0.7 ∧
      e.evidence.map (fun ev => ev.original_modifier)
        = [if edgeDataNoExp.direction.getD "positive" = "positive"
           then edgeDataNoExp.strength.getD 0.7
           else -(edgeDataNoExp.strength.getD 0.7)] ∧
      e.evidence.map (fun ev => ev.confidence)
        = [edgeDataNoExp.aggregate_confidence.getD 0.7]) ∧
    (calculate_aggregate_modifier [{ qa_id := "q", confidence := 1, original_modifier := 1 }]
      = (([{ qa_id := "q", confidence := 1, original_modifier := 1 }] :
          List EdgeEvidence).map (fun e => e.original_modifier * e.confidence)).sum
          / (([{ qa_id := "q", confidence := 1, original_modifier := 1 }] :
              List EdgeEvidence).map (fun e => e.confidence)).sum) ∧
    (∃ e, alookup "e2" (merge_edges twoEdgeCBN "e1" "e2").edges = some e ∧
      e.modifier = calculate_aggregate_modifier e.evidence ∧
      e.aggregate_confidence = calculate_aggregate_confidence e.evidence) := by
  refine ⟨?_, ?_, ?_⟩
  · exact C9_modifier_aggregation.1 twoNodeCBN edgeDataNoExp "e1" (by decide)
  · exact C9_modifier_aggregation.2.1
      [{ qa_id := "q", confidence := 1, original_modifier := 1 }] (by decide) (by simp)
  · exact C9_modifier_aggregation.2.2.2.1 twoEdgeCBN "e1" "e2" (by decide)
      (by decide) (by decide)

/-! ## add_qa_to_graph lemmas (C10) -/

lemma alookup_aupdate_none {κ α : Type} [DecidableEq κ] {k k1 : κ} {l : List (κ × α)}
    (h : alookup k l = none) (f : α → α) : alookup k (aupdate k1 f l) = none := by
  by_cases hk : k1 = k
  · subst hk
    rw [alookup_aupdate_self, h]
    rfl
  · rw [alookup_aupdate_ne hk, h]

lemma alookup_aupdate_isSome {κ α : Type} [DecidableEq κ] (k k1 : κ) (l : List (κ × α))
    (f : α → α) : (alookup k (aupdate k1 f l)).isSome = (alookup k l).isSome := by
  by_cases hk : k1 = k
  · rw [hk, alookup_aupdate_self]
    cases alookup k l <;> rfl
  · rw [alookup_aupdate_ne hk]

lemma resolveQaId_fixed {cbn : CBN} {qa : QAPair} {s : String}
    (hid : qa.id = some s) (hs : s ≠ "") : resolveQaId cbn qa = s := by
  unfold resolveQaId
  rw [hid]
  exact if_neg hs

lemma qaNodeUpdate_any (qa_id : String) (d : NodeCandidate) (n : Node) :
    (qaNodeUpdate qa_id d n).evidence.any (fun e => e.qa_id = qa_id) = true := by
  simp [qaNodeUpdate]

lemma addQaNodeStep_fst_none {qa_id : String} {acc : CBN × List NodeEntry}
    {p : String × NodeCandidate} (h : alookup p.1 acc.1.nodes = none) :
    (addQaNodeStep qa_id acc p).1 = acc.1 := by
  simp only [addQaNodeStep]
  rw [h]

lemma addQaNodeStep_fst_present {qa_id : String} {acc : CBN × List NodeEntry}
    {p : String × NodeCandidate} {n : Node} (h : alookup p.1 acc.1.nodes = some n)
    (hany : n.evidence.any (fun e => e.qa_id = qa_id) = true) :
    (addQaNodeStep qa_id acc p).1 = acc.1 := by
  simp only [addQaNodeStep]
  rw [h]
  simp only [hany, if_true]

lemma addQaNodeStep_fst_fresh {qa_id : String} {acc : CBN × List NodeEntry}
    {p : String × NodeCandidate} {n : Node} (h : alookup p.1 acc.1.nodes = some n)
    (hany : n.evidence.any (fun e => e.qa_id = qa_id) = false) :
    (addQaNodeStep qa_id acc p).1
      = { acc.1 with nodes := aupdate p.1 (qaNodeUpdate qa_id p.2) acc.1.nodes } := by
  simp only [addQaNodeStep]
  rw [h]
  simp only [hany, Bool.false_eq_true, if_false]

lemma addQaNodeStep_fst (qa_id : String) (acc : CBN × List NodeEntry)
    (p : String × NodeCandidate) :
    (addQaNodeStep qa_id acc p).1 = acc.1 ∨
    (∃ n, alookup p.1 acc.1.nodes = some n ∧
      n.evidence.any (fun e => e.qa_id = qa_id) = false ∧
      (addQaNodeStep qa_id acc p).1
        = { acc.1 with nodes := aupdate p.1 (qaNodeUpdate qa_id p.2) acc.1.nodes }) := by
  cases h : alookup p.1 acc.1.nodes with
  | none => exact Or.inl (addQaNodeStep_fst_none h)
  | some n =>
      cases hany : n.evidence.any (fun e => e.qa_id = qa_id) with
      | true => exact Or.inl (addQaNodeStep_fst_present h hany)
      | false => exact Or.inr ⟨n, rfl, hany, addQaNodeStep_fst_fresh h hany⟩

lemma addQaNodeStep_edges (qa_id : String) (acc : CBN × List NodeEntry)
    (p : String × NodeCandidate) : (addQaNodeStep qa_id acc p).1.edges = acc.1.edges := by
  rcases addQaNodeStep_fst qa_id acc p with h | ⟨n, _, _, h⟩ <;> rw [h]

lemma addQaNodeFold_edges (qa_id : String) :
    ∀ (ext : List (String × NodeCandidate)) (acc : CBN × List NodeEntry),
    ((ext.foldl (addQaNodeStep qa_id) acc).1).edges = acc.1.edges
  | [], _ => rfl
  | p :: rest, acc => by
      rw [List.foldl_cons, addQaNodeFold_edges qa_id rest (addQaNodeStep qa_id acc p),
        addQaNodeStep_edges]

lemma addQaNodeStep_pointwise {qa_id : String} {acc : CBN × List NodeEntry}
    {p : String × NodeCandidate} {k : String} {m : Node}
    (h : alookup k (addQaNodeStep qa_id acc p).1.nodes = some m) :
    ∃ n, alookup k acc.1.nodes = some n ∧
      (m = n ∨ (∃ d, m = qaNodeUpdate qa_id d n ∧
        n.evidence.any (fun e => e.qa_id = qa_id) = false)) := by
  rcases addQaNodeStep_fst qa_id acc p with hf | ⟨n0, h0, hany, hf⟩
  · rw [hf] at h
    exact ⟨m, h, Or.inl rfl⟩
  · rw [hf] at h
    by_cases hk : p.1 = k
    · subst hk
      rw [alookup_aupdate_self, h0] at h
      refine ⟨n0, h0, Or.inr ⟨p.2, ?_, hany⟩⟩
      exact (Option.some_inj.mp h).symm
    · rw [alookup_aupdate_ne hk] at h
      exact ⟨m, h, Or.inl rfl⟩

lemma addQaNodeStep_nodes_none {qa_id : String} {acc : CBN × List NodeEntry}
    {p : String × NodeCandidate} {k : String}
    (h : alookup k acc.1.nodes = none) :
    alookup k (addQaNodeStep qa_id acc p).1.nodes = none := by
  rcases addQaNodeStep_fst qa_id acc p with hf | ⟨n0, _, _, hf⟩
  · rw [hf, h]
  · rw [hf]
    exact alookup_aupdate_none h _

lemma addQaNodeFold_pointwise (qa_id : String) :
    ∀ (ext : List (String × NodeCandidate)) (acc : CBN × List NodeEntry)
      (k : String) (m : Node),
    alookup k ((ext.foldl (addQaNodeStep qa_id) acc).1).nodes = some m →
    ∃ n, alookup k acc.1.nodes = some n ∧
      (m = n ∨ (∃ d, m = qaNodeUpdate qa_id d n ∧
        n.evidence.any (fun e => e.qa_id = qa_id) = false))
  | [], _, _, _, h => ⟨_, h, Or.inl rfl⟩
  | p :: rest, acc, k, m, h => by
      rw [List.foldl_cons] at h
      obtain ⟨n1, h1, hrel1⟩ := addQaNodeFold_pointwise qa_id rest _ k m h
      obtain ⟨n0, h0, hrel0⟩ := addQaNodeStep_pointwise h1
      refine ⟨n0, h0, ?_⟩
      rcases hrel0 with rfl | ⟨d, hup, hany⟩
      · exact hrel1
      · rcases hrel1 with rfl | ⟨d1, hup1, hany1⟩
        · exact Or.inr ⟨d, hup, hany⟩
        · rw [hup, qaNodeUpdate_any] at hany1
          exact absurd hany1 (by decide)

lemma addQaNodeStep_any_preserved {qa_id : String} {acc : CBN × List NodeEntry}
    {p : String × NodeCandidate} {k : String} {n : Node}
    (h : alookup k acc.1.nodes = some n)
    (hany : n.evidence.any (fun e => e.qa_id = qa_id) = true) :
    alookup k (addQaNodeStep qa_id acc p).1.nodes = some n := by
  rcases addQaNodeStep_fst qa_id acc p with hf | ⟨n0, h0, hany0, hf⟩
  · rw [hf, h]
  · rw [hf]
    by_cases hk : p.1 = k
    · subst hk
      rw [h0] at h
      rw [Option.some_inj.mp h] at hany0
      rw [hany] at hany0
      exact absurd hany0 (by decide)
    · rw [alookup_aupdate_ne hk, h]

lemma addQaNodeFold_any_preserved (qa_id : String) :
    ∀ (ext : List (String × NodeCandidate)) (acc : CBN × List NodeEntry)
      (k : String) (n : Node),
    alookup k acc.1.nodes = some n →
    n.evidence.any (fun e => e.qa_id = qa_id) = true →
    alookup k ((ext.foldl (addQaNodeStep qa_id) acc).1).nodes = some n
  | [], _, _, _, h, _ => h
  | p :: rest, acc, k, n, h, hany => by
      rw [List.foldl_cons]
      exact addQaNodeFold_any_preserved qa_id rest _ k n
        (addQaNodeStep_any_preserved h hany) hany

lemma addQaNodeStep_saturates {qa_id : String} {acc : CBN × List NodeEntry}
    {p : String × NodeCandidate} {m : Node}
    (h : alookup p.1 (addQaNodeStep qa_id acc p).1.nodes = some m) :
    m.evidence.any (fun e => e.qa_id = qa_id) = true := by
  cases hl : alookup p.1 acc.1.nodes with
  | none =>
      rw [addQaNodeStep_fst_none hl, hl] at h
      exact absurd h (by simp)
  | some n =>
      cases hany : n.evidence.any (fun e => e.qa_id = qa_id) with
      | true =>
          rw [addQaNodeStep_fst_present hl hany, hl] at h
          rw [← Option.some_inj.mp h]
          exact hany
      | false =>
          rw [addQaNodeStep_fst_fresh hl hany] at h
          rw [show ({ acc.1 with nodes := aupdate p.1 (qaNodeUpdate qa_id p.2) acc.1.nodes } : CBN).nodes = aupdate p.1 (qaNodeUpdate qa_id p.2) acc.1.nodes from rfl] at h
          rw [alookup_aupdate_self, hl] at h
          rw [← Option.some_inj.mp h]
          exact qaNodeUpdate_any qa_id p.2 n

lemma addQaNodeFold_saturates (qa_id : String) :
    ∀ (ext : List (String × NodeCandidate)) (acc : CBN × List NodeEntry)
      (p : String × NodeCandidate) (m : Node), p ∈ ext →
    alookup p.1 ((ext.foldl (addQaNodeStep qa_id) acc).1).nodes = some m →
    m.evidence.any (fun e => e.qa_id = qa_id) = true
  | [], _, _, _, hm, _ => absurd hm (by simp)
  | p0 :: rest, acc, p, m, hm, h => by
      rw [List.foldl_cons] at h
      rcases List.mem_cons.mp hm with rfl | hmem
      · cases hl : alookup p.1 (addQaNodeStep qa_id acc p).1.nodes with
        | none =>
            have : alookup p.1 ((rest.foldl (addQaNodeStep qa_id)
                (addQaNodeStep qa_id acc p)).1).nodes = some m := h
            obtain ⟨n1, h1, _⟩ := addQaNodeFold_pointwise qa_id rest _ p.1 m this
            rw [hl] at h1
            exact absurd h1 (by simp)
        | some n1 =>
            have hsat := addQaNodeStep_saturates hl
            have := addQaNodeFold_any_preserved qa_id rest _ p.1 n1 hl hsat
            rw [this] at h
            rw [← Option.some_inj.mp h]
            exact hsat
      · exact addQaNodeFold_saturates qa_id rest _ p m hmem h

lemma addQaNodeFold_second_identity (qa_id : String) :
    ∀ (ext : List (String × NodeCandidate)) (acc : CBN × List NodeEntry),
    (∀ p ∈ ext, ∀ n, alookup p.1 acc.1.nodes = some n →
      n.evidence.any (fun e => e.qa_id = qa_id) = true) →
    ((ext.foldl (addQaNodeStep qa_id) acc).1) = acc.1
  | [], _, _ => rfl
  | p :: rest, acc, hprop => by
      rw [List.foldl_cons]
      have hstep : (addQaNodeStep qa_id acc p).1 = acc.1 := by
        cases hl : alookup p.1 acc.1.nodes with
        | none => exact addQaNodeStep_fst_none hl
        | some n =>
            exact addQaNodeStep_fst_present hl
              (hprop p (List.mem_cons_self p rest) n hl)
      have hrest := addQaNodeFold_second_identity qa_id rest (addQaNodeStep qa_id acc p)
        (by
          intro q hq n hn
          rw [hstep] at hn
          exact hprop q (List.mem_cons_of_mem p hq) n hn)
      rw [hrest, hstep]

lemma qaEdgeUpdate_any (qa_id : String) (c m : ℚ) (e : Edge) :
    (qaEdgeUpdate qa_id c m e).evidence.any (fun ev => ev.qa_id = qa_id) = true := by
  simp [qaEdgeUpdate]

lemma addQaEdgeCore_fst_bad {cbn : CBN} {qa_id eid : String} {e : Edge}
    (h : e.source = "" ∨ e.target = "") : (addQaEdgeCore cbn qa_id eid e).1 = cbn := by
  unfold addQaEdgeCore
  rw [if_pos h]

lemma addQaEdgeCore_fst_present {cbn : CBN} {qa_id eid : String} {e : Edge}
    (hgood : ¬ (e.source = "" ∨ e.target = ""))
    (hany : e.evidence.any (fun ev => ev.qa_id = qa_id) = true) :
    (addQaEdgeCore cbn qa_id eid e).1 = cbn := by
  unfold addQaEdgeCore
  rw [if_neg hgood]
  simp only [hany, if_true]

lemma addQaEdgeCore_fst_fresh {cbn : CBN} {qa_id eid : String} {e : Edge}
    (hgood : ¬ (e.source = "" ∨ e.target = ""))
    (hany : e.evidence.any (fun ev => ev.qa_id = qa_id) = false) :
    (addQaEdgeCore cbn qa_id eid e).1
      = { cbn with edges := aupdate eid (qaEdgeUpdate qa_id e.aggregate_confidence e.modifier) cbn.edges } := by
  unfold addQaEdgeCore
  rw [if_neg hgood]
  simp only [hany, Bool.false_eq_true, if_false]

lemma addQaEdgePath_nodes (cbn : CBN) (qa_id : String) (eid : Option String) :
    (addQaEdgePath cbn qa_id eid).1.nodes = cbn.nodes := by
  cases eid with
  | none => rfl
  | some k =>
      show (match alookup k cbn.edges with
            | none => (cbn, ([] : List PairEntry))
            | some edge => addQaEdgeCore cbn qa_id k edge).1.nodes = cbn.nodes
      cases hl : alookup k cbn.edges with
      | none => rfl
      | some e =>
          by_cases hgood : e.source = "" ∨ e.target = ""
          · rw [addQaEdgeCore_fst_bad hgood]
          · cases hany : e.evidence.any (fun ev => ev.qa_id = qa_id) with
            | true => rw [addQaEdgeCore_fst_present hgood hany]
            | false => rw [addQaEdgeCore_fst_fresh hgood hany]

lemma addQaEdgePath_fst_missing {cbn : CBN} {qa_id k0 : String}
    (hl : alookup k0 cbn.edges = none) :
    (addQaEdgePath cbn qa_id (some k0)).1 = cbn := by
  show (match alookup k0 cbn.edges with
        | none => (cbn, ([] : List PairEntry))
        | some edge => addQaEdgeCore cbn qa_id k0 edge).1 = cbn
  rw [hl]

lemma addQaEdgePath_saturates {cbn : CBN} {qa_id k0 : String} {e1 : Edge}
    (h : alookup k0 (addQaEdgePath cbn qa_id (some k0)).1.edges = some e1) :
    (e1.source = "" ∨ e1.target = "") ∨
    e1.evidence.any (fun ev => ev.qa_id = qa_id) = true := by
  cases hl : alookup k0 cbn.edges with
  | none =>
      rw [addQaEdgePath_fst_missing hl, hl] at h
      exact absurd h (by simp)
  | some e0 =>
      rw [addQaEdgePath_eq qa_id hl] at h
      by_cases hgood : e0.source = "" ∨ e0.target = ""
      · rw [addQaEdgeCore_fst_bad hgood, hl] at h
        rw [← Option.some_inj.mp h]
        exact Or.inl hgood
      · cases hany : e0.evidence.any (fun ev => ev.qa_id = qa_id) with
        | true =>
            rw [addQaEdgeCore_fst_present hgood hany, hl] at h
            rw [← Option.some_inj.mp h]
            exact Or.inr hany
        | false =>
            rw [addQaEdgeCore_fst_fresh hgood hany] at h
            rw [show ({ cbn with edges := aupdate k0 (qaEdgeUpdate qa_id e0.aggregate_confidence e0.modifier) cbn.edges } : CBN).edges = aupdate k0 (qaEdgeUpdate qa_id e0.aggregate_confidence e0.modifier) cbn.edges from rfl] at h
            rw [alookup_aupdate_self, hl] at h
            rw [← Option.some_inj.mp h]
            exact Or.inr (qaEdgeUpdate_any _ _ _ _)

lemma addQaEdgePath_second_fst {cbn : CBN} {qa_id : String} {eid : Option String}
    (hsat : ∀ k0, eid = some k0 → ∀ e, alookup k0 cbn.edges = some e →
      (e.source = "" ∨ e.target = "") ∨
      e.evidence.any (fun ev => ev.qa_id = qa_id) = true) :
    (addQaEdgePath cbn qa_id eid).1 = cbn := by
  cases eid with
  | none => rfl
  | some k0 =>
      show (match alookup k0 cbn.edges with
            | none => (cbn, ([] : List PairEntry))
            | some edge => addQaEdgeCore cbn qa_id k0 edge).1 = cbn
      cases hl : alookup k0 cbn.edges with
      | none => rfl
      | some e =>
          rcases hsat k0 rfl e hl with hbad | hany
          · exact addQaEdgeCore_fst_bad hbad
          · by_cases hgood : e.source = "" ∨ e.target = ""
            · exact addQaEdgeCore_fst_bad hgood
            · exact addQaEdgeCore_fst_present hgood hany

/-! ## C10: idempotent evidence ingestion -/

lemma add_qa_decomp (cbn : CBN) (qa : QAPair) (ext : List (String × NodeCandidate))
    (eid : Option String) :
    (add_qa_to_graph cbn qa ext eid).nodes
      = ((ext.foldl (addQaNodeStep (resolveQaId cbn qa))
          ((addQaEdgePath cbn (resolveQaId cbn qa) eid).1, [])).1).nodes ∧
    (add_qa_to_graph cbn qa ext eid).edges
      = ((ext.foldl (addQaNodeStep (resolveQaId cbn qa))
          ((addQaEdgePath cbn (resolveQaId cbn qa) eid).1, [])).1).edges :=
  ⟨rfl, rfl⟩

lemma any_eq_false_not_mem {l : List NodeEvidence} {qa_id : String}
    (h : l.any (fun e => e.qa_id = qa_id) = false) :
    qa_id ∉ l.map (fun e => e.qa_id) := by
  intro hmem
  rcases List.mem_map.mp hmem with ⟨e, he, hq⟩
  rw [List.any_eq_false] at h
  exact h e he (by simp [hq])

/-- C10: re-ingesting the same `(qa_id, candidates, edge)` payload leaves every
node's and edge's stored state (evidence list, aggregates, modifier,
frequency) unchanged — the whole node and edge tables are equal after the
second ingestion; node evidence keeps at most one entry per `qa_id`; and a
single ingestion of a fresh `qa_id` appends exactly one evidence entry and
increments `frequency` exactly once, while an already-known `qa_id` changes
nothing. -/
theorem C10_idempotent_qa_ingestion :
    (∀ (cbn : CBN) (qa : QAPair) (ext : List (String × NodeCandidate))
      (eid : Option String) (s : String), qa.id = some s → s ≠ "" →
      (add_qa_to_graph (add_qa_to_graph cbn qa ext eid) qa ext eid).nodes
        = (add_qa_to_graph cbn qa ext eid).nodes ∧
      (add_qa_to_graph (add_qa_to_graph cbn qa ext eid) qa ext eid).edges
        = (add_qa_to_graph cbn qa ext eid).edges) ∧
    (∀ (cbn : CBN) (qa : QAPair) (ext : List (String × NodeCandidate))
      (eid : Option String) (id : String) (n n1 : Node),
      alookup id cbn.nodes = some n →
      alookup id (add_qa_to_graph cbn qa ext eid).nodes = some n1 →
      (n.evidence.map (fun e => e.qa_id)).Nodup →
      (n1.evidence.map (fun e => e.qa_id)).Nodup) ∧
    (∀ (qa_id : String) (acc : CBN × List NodeEntry) (id : String)
      (d : NodeCandidate) (n : Node),
      alookup id acc.1.nodes = some n →
      ((n.evidence.any (fun e => e.qa_id = qa_id) = false →
        ∃ n1, alookup id (addQaNodeStep qa_id acc (id, d)).1.nodes = some n1 ∧
          n1.frequency = n.frequency + 1 ∧
          n1.evidence = n.evidence ++
            [{ qa_id := qa_id, confidence := d.aggregate_confidence,
               importance := d.importance }]) ∧
      (n.evidence.any (fun e => e.qa_id = qa_id) = true →
        (addQaNodeStep qa_id acc (id, d)).1 = acc.1))) := by
  refine ⟨?_, ?_, ?_⟩
  · intro cbn qa ext eid s hid hs
    have hres : resolveQaId cbn qa = s := resolveQaId_fixed hid hs
    have hres2 : resolveQaId (add_qa_to_graph cbn qa ext eid) qa = s :=
      resolveQaId_fixed hid hs
    obtain ⟨hAn, hAe⟩ := add_qa_decomp cbn qa ext eid
    rw [hres] at hAn hAe
    obtain ⟨hBn, hBe⟩ := add_qa_decomp (add_qa_to_graph cbn qa ext eid) qa ext eid
    rw [hres2] at hBn hBe
    have hAedges : (add_qa_to_graph cbn qa ext eid).edges
        = (addQaEdgePath cbn s eid).1.edges := by
      rw [hAe, addQaNodeFold_edges]
    have hpath2 : (addQaEdgePath (add_qa_to_graph cbn qa ext eid) s eid).1
        = add_qa_to_graph cbn qa ext eid := by
      apply addQaEdgePath_second_fst
      intro k0 hk0 e he
      rw [hAedges] at he
      subst hk0
      exact addQaEdgePath_saturates he
    have hfold2 : ((ext.foldl (addQaNodeStep s)
        ((addQaEdgePath (add_qa_to_graph cbn qa ext eid) s eid).1, [])).1)
        = add_qa_to_graph cbn qa ext eid := by
      rw [hpath2]
      apply addQaNodeFold_second_identity
      intro p hp n hn
      rw [hAn] at hn
      exact addQaNodeFold_saturates s ext _ p n hp hn
    constructor
    · rw [hBn, hfold2]
    · rw [hBe, hfold2]
  · intro cbn qa ext eid id n n1 hn hn1 hnd
    obtain ⟨hAn, _⟩ := add_qa_decomp cbn qa ext eid
    rw [hAn] at hn1
    obtain ⟨n0, h0, hrel⟩ := addQaNodeFold_pointwise (resolveQaId cbn qa) ext _ id n1 hn1
    rw [addQaEdgePath_nodes] at h0
    rw [hn] at h0
    have hn0 : n0 = n := Option.some_inj.mp h0.symm
    subst hn0
    rcases hrel with rfl | ⟨d, hup, hany⟩
    · exact hnd
    · rw [hup]
      have hev : (qaNodeUpdate (resolveQaId cbn qa) d n0).evidence
          = n0.evidence ++
            [{ qa_id := resolveQaId cbn qa, confidence := d.aggregate_confidence,
               importance := d.importance }] := rfl
      rw [hev, List.map_append]
      simp only [List.map_cons, List.map_nil]
      rw [List.nodup_append]
      refine ⟨hnd, List.nodup_singleton _, ?_⟩
      intro a ha hb
      simp only [List.mem_singleton] at hb
      subst hb
      exact any_eq_false_not_mem hany ha
  · intro qa_id acc id d n hn
    constructor
    · intro hany
      refine ⟨qaNodeUpdate qa_id d n, ?_, rfl, rfl⟩
      rw [addQaNodeStep_fst_fresh (p := (id, d)) hn hany]
      rw [show ({ acc.1 with nodes := aupdate id (qaNodeUpdate qa_id d) acc.1.nodes } : CBN).nodes = aupdate id (qaNodeUpdate qa_id d) acc.1.nodes from rfl]
      rw [alookup_aupdate_self, hn]
      rfl
    · intro hany
      exact addQaNodeStep_fst_present (p := (id, d)) hn hany

/-- C10 witness: the idempotence clauses instantiated at concrete inputs
(the two-node fixture, QA id `qa9`, one extracted-node candidate). -/
theorem C10_idempotent_qa_ingestion_witness :
    ((add_qa_to_graph (add_qa_to_graph twoNodeCBN
        { id := some "qa9", question := "", answer := "" }
        [("n1", { label := "a", aggregate_confidence := 1, importance := 1 })] none)
        { id := some "qa9", question := "", answer := "" }
        [("n1", { label := "a", aggregate_confidence := 1, importance := 1 })] none).nodes
      = (add_qa_to_graph twoNodeCBN
          { id := some "qa9", question := "", answer := "" }
          [("n1", { label := "a", aggregate_confidence := 1, importance := 1 })] none).nodes ∧
     (add_qa_to_graph (add_qa_to_graph twoNodeCBN
        { id := some "qa9", question := "", answer := "" }
        [("n1", { label := "a", aggregate_confidence := 1, importance := 1 })] none)
        { id := some "qa9", question := "", answer := "" }
        [("n1", { label := "a", aggregate_confidence := 1, importance := 1 })] none).edges
      = (add_qa_to_graph twoNodeCBN
          { id := some "qa9", question := "", answer := "" }
          [("n1", { label := "a", aggregate_confidence := 1, importance := 1 })] none).edges) ∧
    ((plainNode "a").evidence.map (fun e => e.qa_id)).Nodup ∧
    ((plainNode "a").evidence.any (fun e => e.qa_id = "qa9") = true →
      (addQaNodeStep "qa9" (twoNodeCBN, []) ("n1",
        { label := "a", aggregate_confidence := 1, importance := 1 })).1 = twoNodeCBN) := by
  refine ⟨?_, ?_, ?_⟩
  · exact C10_idempotent_qa_ingestion.1 twoNodeCBN
      { id := some "qa9", question := "", answer := "" }
      [("n1", { label := "a", aggregate_confidence := 1, importance := 1 })] none
      "qa9" rfl (by decide)
  · exact C10_idempotent_qa_ingestion.2.1 twoNodeCBN
      { id := some "qa9", question := "", answer := "" } [] none "n1"
      (plainNode "a") (plainNode "a") rfl rfl (by decide)
  · exact (C10_idempotent_qa_ingestion.2.2 "qa9" (twoNodeCBN, []) "n1"
      { label := "a", aggregate_confidence := 1, importance := 1 } (plainNode "a") rfl).2


/-! ## Node-view preservation through the merge pass (C5, C8) -/

lemma nview_aupdate {β : Type} {g : Node → β} {f : Node → Node}
    (hf : ∀ n, g (f n) = g n) (k : String) (l : List (String × Node)) :
    nview g (aupdate k f l) = nview g l := by
  unfold nview aupdate
  rw [List.map_map]
  apply List.map_congr_left
  intro p _
  by_cases hp : p.1 = k
  · simp only [Function.comp_apply, if_pos hp, hf]
  · simp only [Function.comp_apply, if_neg hp]

lemma nview_aerase {β : Type} (g : Node → β) (k : String) (l : List (String × Node)) :
    nview g (aerase k l) = (nview g l).filter (fun p => p.1 ≠ k) := by
  induction l with
  | nil => rfl
  | cons p rest ih =>
      obtain ⟨a, b⟩ := p
      rw [aerase_cons]
      by_cases hp : a = k
      · rw [if_pos hp]
        show nview g (aerase k rest)
          = List.filter (fun p => decide (p.1 ≠ k)) ((a, g b) :: nview g rest)
        rw [List.filter_cons, if_neg (by simp [hp])]
        exact ih
      · rw [if_neg hp]
        show (a, g b) :: nview g (aerase k rest)
          = List.filter (fun p => decide (p.1 ≠ k)) ((a, g b) :: nview g rest)
        rw [List.filter_cons, if_pos (by simp [hp])]
        rw [ih]

/-- The projections we track are insensitive to edge-list rewiring and to
evidence/aggregate recomputation. -/
def viewStable {β : Type} (g : Node → β) : Prop :=
  (∀ (n : Node) (i o : List String),
    g { n with incoming_edges := i, outgoing_edges := o } = g n) ∧
  (∀ (n : Node) (ev : List NodeEvidence) (fr : Nat) (imp conf : ℚ),
    g { n with evidence := ev, frequency := fr, importance := imp,
               aggregate_confidence := conf } = g n)

lemma nview_redirectCore {β : Type} {g : Node → β} (hg : viewStable g)
    (cbn : CBN) (a b : Node) (nid : String) :
    nview g (redirectCore cbn a b nid).nodes = nview g cbn.nodes := by
  unfold redirectCore
  exact nview_aupdate (fun n => hg.1 n _ _) _ _

lemma nview_redirect {β : Type} {g : Node → β} (hg : viewStable g)
    (cbn : CBN) (s t : String) :
    nview g (redirect_node_edges cbn s t).nodes = nview g cbn.nodes := by
  unfold redirect_node_edges
  cases alookup s cbn.nodes with
  | none => rfl
  | some a =>
      cases alookup t cbn.nodes with
      | none => rfl
      | some b => exact nview_redirectCore hg cbn a b t

lemma nview_mergeNodesCore {β : Type} {g : Node → β} (hg : viewStable g)
    (cbn : CBN) (sn : Node) (s t : String) :
    nview g (mergeNodesCore cbn sn s t).nodes
      = (nview g cbn.nodes).filter (fun p => p.1 ≠ s) := by
  unfold mergeNodesCore
  rw [show ∀ c : CBN, ({ c with anchor_queue := if s ∈ c.anchor_queue then (if t ∈ c.anchor_queue.erase s then c.anchor_queue.erase s else c.anchor_queue.erase s ++ [t]) else c.anchor_queue } : CBN).nodes = c.nodes from fun _ => rfl]
  rw [nview_aerase]
  rw [show ∀ (c : CBN) (q : List (String × QAEntry)), ({ c with qa_history := q } : CBN).nodes = c.nodes from fun _ _ => rfl]
  rw [nview_redirect hg]
  rw [show ({ cbn with nodes := aupdate t (mergedNodeUpdate sn) cbn.nodes } : CBN).nodes = aupdate t (mergedNodeUpdate sn) cbn.nodes from rfl]
  rw [nview_aupdate (f := mergedNodeUpdate sn) (fun n => hg.2 n _ _ _ _)]

lemma nview_mergeEdgesCore {β : Type} {g : Node → β} (hg : viewStable g)
    (cbn : CBN) (se : Edge) (s t : String) :
    nview g (mergeEdgesCore cbn se s t).nodes = nview g cbn.nodes := by
  unfold mergeEdgesCore
  rw [nview_aupdate (fun n => hg.1 n _ _), nview_aupdate (fun n => hg.1 n _ _)]

lemma nview_merge_edges {β : Type} {g : Node → β} (hg : viewStable g)
    (cbn : CBN) (s t : String) :
    nview g (merge_edges cbn s t).nodes = nview g cbn.nodes := by
  unfold merge_edges
  cases alookup s cbn.edges with
  | none => rfl
  | some se =>
      cases alookup t cbn.edges with
      | none => rfl
      | some te => exact nview_mergeEdgesCore hg cbn se s t

lemma nview_dupApply {β : Type} {g : Node → β} (hg : viewStable g) :
    ∀ (cands : List (String × String)) (c : CBN),
    nview g (cands.foldl (fun c pr =>
      if (alookup pr.1 c.edges).isSome ∧ (alookup pr.2 c.edges).isSome
      then merge_edges c pr.1 pr.2 else c) c).nodes = nview g c.nodes
  | [], _ => rfl
  | pr :: rest, c => by
      rw [List.foldl_cons]
      by_cases hc : (alookup pr.1 c.edges).isSome ∧ (alookup pr.2 c.edges).isSome
      · rw [if_pos hc, nview_dupApply hg rest _, nview_merge_edges hg]
      · rw [if_neg hc, nview_dupApply hg rest _]

lemma nview_merge_dup {β : Type} {g : Node → β} (hg : viewStable g)
    (cbn : CBN) (t : String) :
    nview g (merge_duplicate_edges_after_node_merge cbn t).nodes
      = nview g cbn.nodes := by
  unfold merge_duplicate_edges_after_node_merge
  cases alookup t cbn.nodes with
  | none => rfl
  | some tn => exact nview_dupApply hg _ cbn

lemma nview_merge_nodes_some {β : Type} {g : Node → β} (hg : viewStable g)
    {cbn : CBN} {s t : String} {sn tn : Node}
    (hs : alookup s cbn.nodes = some sn) (ht : alookup t cbn.nodes = some tn) :
    nview g (merge_nodes cbn s t).nodes
      = (nview g cbn.nodes).filter (fun p => p.1 ≠ s) := by
  rw [merge_nodes_eq hs ht]
  exact nview_mergeNodesCore hg cbn sn s t

lemma viewStable_label : viewStable (fun n => n.label) := ⟨fun _ _ _ => rfl, fun _ _ _ _ _ => rfl⟩

lemma viewStable_status : viewStable (fun n => (n.status, n.is_stance)) :=
  ⟨fun _ _ _ => rfl, fun _ _ _ _ _ => rfl⟩

lemma nview_promoteList {β : Type} {g : Node → β}
    (hp : ∀ n, g { n with status := "anchor" } = g n) :
    ∀ (l : List (String × Node)) (q : List String),
    nview g (promoteList l q).1 = nview g l
  | [], _ => rfl
  | p :: rest, q => by
      show nview g ((promoteStep q p).1 :: (promoteList rest (promoteStep q p).2).1)
        = nview g (p :: rest)
      rcases promoteStep_cases q p with hs | ⟨_, _, _, hs⟩
      · rw [hs]
        show (p.1, g p.2) :: nview g (promoteList rest q).1 = (p.1, g p.2) :: nview g rest
        rw [nview_promoteList hp rest q]
      · rw [hs]
        show (p.1, g { p.2 with status := "anchor" }) ::
            nview g (promoteList rest (q ++ [p.1])).1 = (p.1, g p.2) :: nview g rest
        rw [nview_promoteList hp rest (q ++ [p.1]), hp p.2]

lemma nview_check_node_promotion {β : Type} {g : Node → β}
    (hp : ∀ n, g { n with status := "anchor" } = g n) (cbn : CBN) :
    nview g (check_node_promotion cbn).nodes = nview g cbn.nodes :=
  nview_promoteList hp cbn.nodes cbn.anchor_queue


/-! ## Similarity-matcher completeness (C5) -/

lemma pair_sublist_of_mem {α : Type} {a b : α} :
    ∀ {l : List α}, a ∈ l → b ∈ l → a ≠ b → List.Sublist [a, b] l ∨ List.Sublist [b, a] l := by
  intro l
  induction l with
  | nil => intro h _ _; exact absurd h (by simp)
  | cons x tail ih =>
      intro ha hb hne
      rcases List.mem_cons.mp ha with rfl | ha2
      · have hb2 : b ∈ tail := by
          rcases List.mem_cons.mp hb with heq | h
          · exact absurd heq.symm hne
          · exact h
        exact Or.inl ((List.singleton_sublist.mpr hb2).cons₂ a)
      · rcases List.mem_cons.mp hb with rfl | hb2
        · exact Or.inr ((List.singleton_sublist.mpr ha2).cons₂ b)
        · rcases ih ha2 hb2 hne with h | h
          · exact Or.inl (h.cons x)
          · exact Or.inr (h.cons x)

lemma sublist_map_pair {α β : Type} (f : α → β) :
    ∀ {l : List α} {y1 y2 : β}, List.Sublist [y1, y2] (l.map f) →
    ∃ x1 x2, List.Sublist [x1, x2] l ∧ f x1 = y1 ∧ f x2 = y2 := by
  intro l
  induction l with
  | nil => intro y1 y2 h; exact absurd h (by simp)
  | cons x tail ih =>
      intro y1 y2 h
      rw [List.map_cons] at h
      cases h with
      | cons _ h2 =>
          obtain ⟨x1, x2, hs, hx1, hx2⟩ := ih h2
          exact ⟨x1, x2, hs.cons x, hx1, hx2⟩
      | cons₂ _ h2 =>
          have hm : y2 ∈ tail.map f := List.singleton_sublist.mp h2
          obtain ⟨x2, hx2, hfx2⟩ := List.mem_map.mp hm
          exact ⟨x, x2, (List.singleton_sublist.mpr hx2).cons₂ x, rfl, hfx2⟩

lemma nview_mem_key {β : Type} {g : Node → β} {k : String} {v : β}
    {l : List (String × Node)} (h : (k, v) ∈ nview g l) : (alookup k l).isSome := by
  rw [alookup_isSome_iff_mem_keys]
  obtain ⟨p, hp, hpe⟩ := List.mem_map.mp h
  have : p.1 = k := congrArg Prod.fst hpe
  exact this ▸ List.mem_map.mpr ⟨p, hp, rfl⟩

lemma simRow_mem {id1 : String} {n1 : Node} :
    ∀ {rest : List (String × Node)} {id2 : String} {n2 : Node},
    (id2, n2) ∈ rest → n1.label ≠ "" → n2.label ≠ "" →
    node_similarity n1.label n2.label ≥ similarity_threshold →
    (id1, id2, node_similarity n1.label n2.label) ∈ simRow id1 n1 rest := by
  intro rest
  induction rest with
  | nil => intro id2 n2 h _ _ _; exact absurd h (by simp)
  | cons p tail ih =>
      intro id2 n2 hmem h1 h2 hsim
      obtain ⟨a, b⟩ := p
      rcases List.mem_cons.mp hmem with heq | hmem2
      · cases heq.symm
        show (id1, id2, node_similarity n1.label n2.label) ∈
          (if n1.label = "" ∨ n2.label = "" then simRow id1 n1 tail
           else if node_similarity n1.label n2.label ≥ similarity_threshold then
             (id1, id2, node_similarity n1.label n2.label) :: simRow id1 n1 tail
           else simRow id1 n1 tail)
        rw [if_neg (by rintro (hc | hc) <;> [exact h1 hc; exact h2 hc]), if_pos hsim]
        exact List.mem_cons_self _ _
      · have hmemtail := ih hmem2 h1 h2 hsim
        show (id1, id2, node_similarity n1.label n2.label) ∈
          (if n1.label = "" ∨ b.label = "" then simRow id1 n1 tail
           else if node_similarity n1.label b.label ≥ similarity_threshold then
             (id1, a, node_similarity n1.label b.label) :: simRow id1 n1 tail
           else simRow id1 n1 tail)
        split_ifs
        · exact hmemtail
        · exact List.mem_cons_of_mem _ hmemtail
        · exact hmemtail

lemma simPairs_complete :
    ∀ {nodes : List (String × Node)} {k1 k2 : String} {n1 n2 : Node},
    List.Sublist [(k1, n1), (k2, n2)] nodes → n1.label ≠ "" → n2.label ≠ "" →
    node_similarity n1.label n2.label ≥ similarity_threshold →
    (k1, k2, node_similarity n1.label n2.label) ∈ simPairs nodes := by
  intro nodes
  induction nodes with
  | nil => intro k1 k2 n1 n2 h _ _ _; exact absurd h (by simp)
  | cons p tail ih =>
      intro k1 k2 n1 n2 hsub h1 h2 hsim
      cases hsub with
      | cons _ htail =>
          obtain ⟨a, b⟩ := p
          show (k1, k2, node_similarity n1.label n2.label) ∈ simRow a b tail ++ simPairs tail
          exact List.mem_append_right _ (ih htail h1 h2 hsim)
      | cons₂ _ htail =>
          have hmem : (k2, n2) ∈ tail := List.singleton_sublist.mp htail
          show (k1, k2, node_similarity n1.label n2.label) ∈ simRow k1 n1 tail ++ simPairs tail
          exact List.mem_append_left _ (simRow_mem hmem h1 h2 hsim)

lemma determine_direction_pair (k1 k2 : String) (n1 n2 : Node) :
    determine_merge_direction k1 k2 n1 n2 = (k1, k2) ∨
    determine_merge_direction k1 k2 n1 n2 = (k2, k1) := by
  unfold determine_merge_direction
  split_ifs <;> first | exact Or.inl rfl | exact Or.inr rfl

lemma find_mergeable_complete {cbn : CBN} (hnd : (cbn.nodes.map Prod.fst).Nodup)
    {k1 k2 : String} {n1 n2 : Node}
    (hsub : List.Sublist [(k1, n1), (k2, n2)] cbn.nodes)
    (h1 : n1.label ≠ "") (h2 : n2.label ≠ "")
    (hsim : node_similarity n1.label n2.label ≥ similarity_threshold) :
    (k1, k2) ∈ find_mergeable_nodes cbn ∨ (k2, k1) ∈ find_mergeable_nodes cbn := by
  have hlen : 2 ≤ cbn.nodes.length := by simpa using hsub.length_le
  have hmem1 : (k1, n1) ∈ cbn.nodes := hsub.subset (by simp)
  have hmem2 : (k2, n2) ∈ cbn.nodes := hsub.subset (by simp)
  have hl1 : alookup k1 cbn.nodes = some n1 := mem_alookup hnd hmem1
  have hl2 : alookup k2 cbn.nodes = some n2 := mem_alookup hnd hmem2
  have hpairs : (k1, k2, node_similarity n1.label n2.label)
      ∈ find_similar_nodes cbn.nodes := by
    unfold find_similar_nodes
    rw [if_neg (by omega)]
    exact simPairs_complete hsub h1 h2 hsim
  have hmm : determine_merge_direction k1 k2 n1 n2 ∈ find_mergeable_nodes cbn := by
    unfold find_mergeable_nodes
    rw [if_neg (by omega)]
    apply List.mem_filterMap.mpr
    refine ⟨(k1, k2, node_similarity n1.label n2.label), hpairs, ?_⟩
    show (match alookup k1 cbn.nodes, alookup k2 cbn.nodes with
          | some m1, some m2 => some (determine_merge_direction k1 k2 m1 m2)
          | _, _ => none) = some (determine_merge_direction k1 k2 n1 n2)
    rw [hl1, hl2]
  rcases determine_direction_pair k1 k2 n1 n2 with hd | hd
  · exact Or.inl (hd ▸ hmm)
  · exact Or.inr (hd ▸ hmm)


/-! ## Symmetry of the similarity score (C5) -/

lemma filter_contains_length_comm (w1 w2 : List String)
    (h1 : w1.Nodup) (h2 : w2.Nodup) :
    (w1.filter (fun w => w2.contains w)).length
      = (w2.filter (fun w => w1.contains w)).length := by
  have e1 : (w1.filter (fun w => w2.contains w)).length
      = (w1.toFinset ∩ w2.toFinset).card := by
    rw [← List.toFinset_card_of_nodup (h1.filter _), List.toFinset_filter]
    congr 1
    ext a
    simp [List.elem_iff]
  have e2 : (w2.filter (fun w => w1.contains w)).length
      = (w2.toFinset ∩ w1.toFinset).card := by
    rw [← List.toFinset_card_of_nodup (h2.filter _), List.toFinset_filter]
    congr 1
    ext a
    simp [List.elem_iff]
  rw [e1, e2, Finset.inter_comm]

lemma dedup_append_length_comm (w1 w2 : List String) :
    ((w1 ++ w2).dedup).length = ((w2 ++ w1).dedup).length := by
  rw [← List.card_toFinset, ← List.card_toFinset, List.toFinset_append,
    List.toFinset_append, Finset.union_comm]

lemma node_similarity_comm (l1 l2 : String) :
    node_similarity l1 l2 = node_similarity l2 l1 := by
  have hc := filter_contains_length_comm (preprocess_label l1).dedup
    (preprocess_label l2).dedup (List.nodup_dedup _) (List.nodup_dedup _)
  have ht := dedup_append_length_comm (preprocess_label l1).dedup
    (preprocess_label l2).dedup
  show (if (((preprocess_label l1).dedup ++ (preprocess_label l2).dedup).dedup).isEmpty
      then (0 : ℚ)
      else (((preprocess_label l1).dedup.filter
              (fun w => (preprocess_label l2).dedup.contains w)).length : ℚ)
        / (((((preprocess_label l1).dedup ++ (preprocess_label l2).dedup).dedup).length : Nat) : ℚ))
    = (if (((preprocess_label l2).dedup ++ (preprocess_label l1).dedup).dedup).isEmpty
      then (0 : ℚ)
      else (((preprocess_label l2).dedup.filter
              (fun w => (preprocess_label l1).dedup.contains w)).length : ℚ)
        / (((((preprocess_label l2).dedup ++ (preprocess_label l1).dedup).dedup).length : Nat) : ℚ))
  by_cases he1 : (((preprocess_label l1).dedup ++ (preprocess_label l2).dedup).dedup).isEmpty
  · have he2 : (((preprocess_label l2).dedup ++ (preprocess_label l1).dedup).dedup).isEmpty := by
      rw [List.isEmpty_iff, ← List.length_eq_zero] at he1 ⊢
      omega
    rw [if_pos he1, if_pos he2]
  · have he2 : ¬ (((preprocess_label l2).dedup ++ (preprocess_label l1).dedup).dedup).isEmpty := by
      rw [List.isEmpty_iff, ← List.length_eq_zero] at he1 ⊢
      omega
    rw [if_neg he1, if_neg he2, hc, ht]


/-! ## The merge pass deletes every executed source and never revives a key (C5) -/

lemma nview_keys {β : Type} (g : Node → β) (l : List (String × Node)) :
    (nview g l).map Prod.fst = l.map Prod.fst := by
  unfold nview
  rw [List.map_map]
  exact List.map_congr_left (fun p _ => rfl)

lemma keys_filter_fst {α : Type} (s : String) :
    ∀ (l : List (String × α)),
    (l.filter (fun p => p.1 ≠ s)).map Prod.fst
      = (l.map Prod.fst).filter (fun k => k ≠ s)
  | [] => rfl
  | p :: rest => by
      by_cases h : p.1 = s
      · rw [List.filter_cons, if_neg (by simp [h]), List.map_cons,
          List.filter_cons, if_neg (by simp [h])]
        exact keys_filter_fst s rest
      · rw [List.filter_cons, if_pos (by simp [h]), List.map_cons, List.map_cons,
          List.filter_cons, if_pos (by simp [h])]
        rw [keys_filter_fst s rest]

lemma keys_merge_dup (cbn : CBN) (t : String) :
    (merge_duplicate_edges_after_node_merge cbn t).nodes.map Prod.fst
      = cbn.nodes.map Prod.fst := by
  have h := congrArg (List.map Prod.fst)
    (nview_merge_dup (g := fun n => n.label) viewStable_label cbn t)
  rwa [nview_keys, nview_keys] at h

lemma keys_merge_nodes {cbn : CBN} {s t : String} {sn tn : Node}
    (hs : alookup s cbn.nodes = some sn) (ht : alookup t cbn.nodes = some tn) :
    (merge_nodes cbn s t).nodes.map Prod.fst
      = (cbn.nodes.map Prod.fst).filter (fun k => k ≠ s) := by
  have h := congrArg (List.map Prod.fst)
    (nview_merge_nodes_some (g := fun n => n.label) viewStable_label hs ht)
  rwa [nview_keys, keys_filter_fst, nview_keys] at h

lemma applyNodeMerges_cons (cbn : CBN) (s t : String) (rest : List (String × String)) :
    applyNodeMerges cbn ((s, t) :: rest)
      = if (alookup s cbn.nodes).isSome ∧ (alookup t cbn.nodes).isSome
        then applyNodeMerges
          (merge_duplicate_edges_after_node_merge (merge_nodes cbn s t) t) rest
        else applyNodeMerges cbn rest := rfl

lemma applyMerges_alive_mono :
    ∀ (cands : List (String × String)) (cbn : CBN) (k : String),
    (alookup k (applyNodeMerges cbn cands).nodes).isSome →
    (alookup k cbn.nodes).isSome
  | [], _, _, h => h
  | (s, t) :: rest, cbn, k, h => by
      rw [applyNodeMerges_cons] at h
      by_cases hc : (alookup s cbn.nodes).isSome ∧ (alookup t cbn.nodes).isSome
      · rw [if_pos hc] at h
        have h2 := applyMerges_alive_mono rest _ k h
        obtain ⟨sn, hsn⟩ := Option.isSome_iff_exists.mp hc.1
        obtain ⟨tn, htn⟩ := Option.isSome_iff_exists.mp hc.2
        rw [alookup_isSome_iff_mem_keys] at h2 ⊢
        rw [keys_merge_dup, keys_merge_nodes hsn htn] at h2
        exact List.mem_of_mem_filter h2
      · rw [if_neg hc] at h
        exact applyMerges_alive_mono rest cbn k h

lemma applyMerges_kills :
    ∀ (cands : List (String × String)) (cbn : CBN) (s t : String),
    (s, t) ∈ cands →
    (alookup s (applyNodeMerges cbn cands).nodes).isSome →
    (alookup t (applyNodeMerges cbn cands).nodes).isSome → False
  | [], _, _, _, hmem, _, _ => by simp at hmem
  | (a, b) :: rest, cbn, s, t, hmem, hs, ht => by
      rw [applyNodeMerges_cons] at hs ht
      rcases List.mem_cons.mp hmem with heq | hrest
      · obtain ⟨rfl, rfl⟩ := Prod.mk.injEq .. ▸ heq
        by_cases hc : (alookup s cbn.nodes).isSome ∧ (alookup t cbn.nodes).isSome
        · rw [if_pos hc] at hs
          have h2 := applyMerges_alive_mono rest _ s hs
          obtain ⟨sn, hsn⟩ := Option.isSome_iff_exists.mp hc.1
          obtain ⟨tn, htn⟩ := Option.isSome_iff_exists.mp hc.2
          rw [alookup_isSome_iff_mem_keys, keys_merge_dup,
            keys_merge_nodes hsn htn] at h2
          have := List.of_mem_filter h2
          simp at this
        · rw [if_neg hc] at hs ht
          exact hc ⟨applyMerges_alive_mono rest cbn s hs,
            applyMerges_alive_mono rest cbn t ht⟩
      · by_cases hc : (alookup a cbn.nodes).isSome ∧ (alookup b cbn.nodes).isSome
        · rw [if_pos hc] at hs ht
          exact applyMerges_kills rest _ s t hrest hs ht
        · rw [if_neg hc] at hs ht
          exact applyMerges_kills rest cbn s t hrest hs ht

lemma applyMerges_view_mem {β : Type} {g : Node → β} (hg : viewStable g) :
    ∀ (cands : List (String × String)) (cbn : CBN) (k : String) (v : β),
    (k, v) ∈ nview g (applyNodeMerges cbn cands).nodes →
    (k, v) ∈ nview g cbn.nodes
  | [], _, _, _, h => h
  | (s, t) :: rest, cbn, k, v, h => by
      rw [applyNodeMerges_cons] at h
      by_cases hc : (alookup s cbn.nodes).isSome ∧ (alookup t cbn.nodes).isSome
      · rw [if_pos hc] at h
        have h2 := applyMerges_view_mem hg rest _ k v h
        obtain ⟨sn, hsn⟩ := Option.isSome_iff_exists.mp hc.1
        obtain ⟨tn, htn⟩ := Option.isSome_iff_exists.mp hc.2
        rw [nview_merge_dup hg, nview_merge_nodes_some hg hsn htn] at h2
        exact List.mem_of_mem_filter h2
      · rw [if_neg hc] at h
        exact applyMerges_view_mem hg rest cbn k v h


/-- **C5**: when `merge_graph_components` returns, the similarity matcher finds
no further matches: no two distinct remaining nodes with non-empty labels have
normalized-token Jaccard similarity at or above the 0.7 threshold (the single
candidate pass already reaches the fixed point, because labels never change
during the pass and nodes are only deleted). -/
theorem C5_merge_pass_reaches_similarity_fixed_point (cbn : CBN)
    (hnd : (cbn.nodes.map Prod.fst).Nodup)
    (k1 k2 : String) (n1 n2 : Node) (hk : k1 ≠ k2)
    (h1 : (k1, n1) ∈ (merge_graph_components cbn).nodes)
    (h2 : (k2, n2) ∈ (merge_graph_components cbn).nodes)
    (hl1 : n1.label ≠ "") (hl2 : n2.label ≠ "") :
    node_similarity n1.label n2.label < similarity_threshold := by
  by_contra hge
  rw [not_lt] at hge
  have hv1 : (k1, n1.label) ∈ nview (fun n => n.label) (merge_graph_components cbn).nodes :=
    List.mem_map.mpr ⟨(k1, n1), h1, rfl⟩
  have hv2 : (k2, n2.label) ∈ nview (fun n => n.label) (merge_graph_components cbn).nodes :=
    List.mem_map.mpr ⟨(k2, n2), h2, rfl⟩
  have hviewX : nview (fun n => n.label) (merge_graph_components cbn).nodes
      = nview (fun n => n.label)
          (applyNodeMerges cbn (find_mergeable_nodes cbn)).nodes := by
    show nview _ (check_node_promotion (applyNodeMerges cbn (find_mergeable_nodes cbn))).nodes = _
    exact nview_check_node_promotion (g := fun n => n.label) (fun n => rfl) _
  rw [hviewX] at hv1 hv2
  have halive1 := nview_mem_key hv1
  have halive2 := nview_mem_key hv2
  have hb1 := applyMerges_view_mem viewStable_label _ cbn k1 n1.label hv1
  have hb2 := applyMerges_view_mem viewStable_label _ cbn k2 n2.label hv2
  obtain ⟨⟨a1, m1⟩, hm1mem, hm1eq⟩ := List.mem_map.mp hb1
  obtain ⟨⟨a2, m2⟩, hm2mem, hm2eq⟩ := List.mem_map.mp hb2
  have ha1 : a1 = k1 := congrArg Prod.fst hm1eq
  have hml1 : m1.label = n1.label := congrArg Prod.snd hm1eq
  have ha2 : a2 = k2 := congrArg Prod.fst hm2eq
  have hml2 : m2.label = n2.label := congrArg Prod.snd hm2eq
  subst ha1
  subst ha2
  have hpne : ((a1, m1) : String × Node) ≠ (a2, m2) :=
    fun h => hk (congrArg Prod.fst h)
  rcases pair_sublist_of_mem hm1mem hm2mem hpne with hsub | hsub
  · have hcand := find_mergeable_complete hnd hsub
      (by rw [hml1]; exact hl1) (by rw [hml2]; exact hl2)
      (by rw [hml1, hml2]; exact hge)
    rcases hcand with hc | hc
    · exact applyMerges_kills (find_mergeable_nodes cbn) cbn a1 a2 hc halive1 halive2
    · exact applyMerges_kills (find_mergeable_nodes cbn) cbn a2 a1 hc halive2 halive1
  · have hcand := find_mergeable_complete hnd hsub
      (by rw [hml2]; exact hl2) (by rw [hml1]; exact hl1)
      (by rw [hml2, hml1, node_similarity_comm]; exact hge)
    rcases hcand with hc | hc
    · exact applyMerges_kills (find_mergeable_nodes cbn) cbn a2 a1 hc halive2 halive1
    · exact applyMerges_kills (find_mergeable_nodes cbn) cbn a1 a2 hc halive1 halive2


/-- The two fixture labels are dissimilar (Jaccard 0/2). -/
lemma sim_ab_below_threshold : ¬ (node_similarity "a" "b" ≥ similarity_threshold) := by
  have hv : node_similarity "a" "b"
      = ((([] : List String).length : ℚ) / ((["a", "b"] : List String).length : ℚ)) := rfl
  rw [ge_iff_le, hv]
  norm_num [similarity_threshold]

lemma find_similar_anchorPair : find_similar_nodes anchorPairCBN.nodes = [] := by
  show (if anchorPairCBN.nodes.length < 2 then [] else simPairs anchorPairCBN.nodes) = []
  rw [if_neg (by decide)]
  show (if ("a" : String) = "" ∨ ("b" : String) = "" then simRow "n1" anchorNodeA []
        else if node_similarity "a" "b" ≥ similarity_threshold then
          ("n1", "n2", node_similarity "a" "b") :: simRow "n1" anchorNodeA []
        else simRow "n1" anchorNodeA [])
      ++ (simRow "n2" anchorNodeB [] ++ simPairs []) = []
  rw [if_neg (by decide), if_neg sim_ab_below_threshold]
  rfl

lemma merge_pass_anchorPair_eval : merge_graph_components anchorPairCBN = anchorPairCBN := by
  have hfm : find_mergeable_nodes anchorPairCBN = [] := by
    unfold find_mergeable_nodes
    rw [if_neg (by decide), find_similar_anchorPair]
    rfl
  show check_node_promotion
    (applyNodeMerges anchorPairCBN (find_mergeable_nodes anchorPairCBN)) = anchorPairCBN
  rw [hfm]
  rfl

/-- Witness for C5 on the concrete two-anchor fixture. -/
theorem C5_merge_pass_reaches_similarity_fixed_point_witness :
    ((anchorPairCBN.nodes.map Prod.fst).Nodup ∧ ("n1" : String) ≠ "n2"
      ∧ ("n1", anchorNodeA) ∈ (merge_graph_components anchorPairCBN).nodes
      ∧ ("n2", anchorNodeB) ∈ (merge_graph_components anchorPairCBN).nodes
      ∧ anchorNodeA.label ≠ "" ∧ anchorNodeB.label ≠ "")
    ∧ node_similarity anchorNodeA.label anchorNodeB.label < similarity_threshold := by
  have hm1 : ("n1", anchorNodeA) ∈ (merge_graph_components anchorPairCBN).nodes := by
    rw [merge_pass_anchorPair_eval]
    exact List.mem_cons_self _ _
  have hm2 : ("n2", anchorNodeB) ∈ (merge_graph_components anchorPairCBN).nodes := by
    rw [merge_pass_anchorPair_eval]
    exact List.mem_cons_of_mem _ (List.mem_cons_self _ _)
  exact ⟨⟨by decide, by decide, hm1, hm2, by decide, by decide⟩,
    C5_merge_pass_reaches_similarity_fixed_point anchorPairCBN (by decide) "n1" "n2"
      anchorNodeA anchorNodeB (by decide) hm1 hm2 (by decide) (by decide)⟩


/-! ## Anchor-queue bookkeeping of the merge step (C8) -/

lemma alookup_nview {β : Type} (g : Node → β) (k : String) :
    ∀ l : List (String × Node), alookup k (nview g l) = (alookup k l).map g
  | [] => rfl
  | p :: rest => by
      show alookup k ((p.1, g p.2) :: nview g rest) = (alookup k (p :: rest)).map g
      rw [alookup_cons, alookup_cons]
      by_cases h : p.1 = k
      · rw [if_pos h, if_pos h]
        rfl
      · rw [if_neg h, if_neg h]
        exact alookup_nview g k rest

lemma alookup_filter_ne {α : Type} (k s : String) :
    ∀ l : List (String × α),
    alookup k (l.filter (fun p => p.1 ≠ s))
      = if k = s then none else alookup k l
  | [] => by
      by_cases h : k = s
      · rw [if_pos h]
        rfl
      · rw [if_neg h]
        rfl
  | p :: rest => by
      by_cases hp : p.1 = s
      · rw [List.filter_cons, if_neg (by simp [hp]), alookup_filter_ne k s rest]
        by_cases h : k = s
        · rw [if_pos h, if_pos h]
        · rw [if_neg h, if_neg h, alookup_cons, if_neg (fun hc => h (by rw [← hc, hp]))]
      · rw [List.filter_cons, if_pos (by simp [hp]), alookup_cons]
        by_cases hk : p.1 = k
        · rw [if_pos hk]
          rw [if_neg (fun hc => hp (hk.trans hc)), alookup_cons, if_pos hk]
        · rw [if_neg hk, alookup_filter_ne k s rest]
          by_cases h : k = s
          · rw [if_pos h, if_pos h]
          · rw [if_neg h, if_neg h, alookup_cons, if_neg hk]

lemma redirectCore_queue (cbn : CBN) (a b : Node) (nid : String) :
    (redirectCore cbn a b nid).anchor_queue = cbn.anchor_queue := rfl

lemma redirect_queue (cbn : CBN) (s t : String) :
    (redirect_node_edges cbn s t).anchor_queue = cbn.anchor_queue := by
  unfold redirect_node_edges
  cases alookup s cbn.nodes with
  | none => rfl
  | some a =>
      cases alookup t cbn.nodes with
      | none => rfl
      | some b => rfl

lemma mergeNodesCore_queue (cbn : CBN) (sn : Node) (s t : String) :
    (mergeNodesCore cbn sn s t).anchor_queue
      = if s ∈ cbn.anchor_queue then
          (if t ∈ cbn.anchor_queue.erase s then cbn.anchor_queue.erase s
           else cbn.anchor_queue.erase s ++ [t])
        else cbn.anchor_queue := by
  simp only [mergeNodesCore]
  rw [redirect_queue]

lemma mergeEdgesCore_queue (cbn : CBN) (se : Edge) (s t : String) :
    (mergeEdgesCore cbn se s t).anchor_queue = cbn.anchor_queue := rfl

lemma merge_edges_queue (cbn : CBN) (s t : String) :
    (merge_edges cbn s t).anchor_queue = cbn.anchor_queue := by
  unfold merge_edges
  cases alookup s cbn.edges with
  | none => rfl
  | some se =>
      cases alookup t cbn.edges with
      | none => rfl
      | some te => rfl

lemma dupApply_queue :
    ∀ (cands : List (String × String)) (c : CBN),
    (cands.foldl (fun c pr =>
      if (alookup pr.1 c.edges).isSome ∧ (alookup pr.2 c.edges).isSome
      then merge_edges c pr.1 pr.2 else c) c).anchor_queue = c.anchor_queue
  | [], _ => rfl
  | pr :: rest, c => by
      rw [List.foldl_cons]
      by_cases hc : (alookup pr.1 c.edges).isSome ∧ (alookup pr.2 c.edges).isSome
      · rw [if_pos hc, dupApply_queue rest _, merge_edges_queue]
      · rw [if_neg hc, dupApply_queue rest _]

lemma merge_dup_queue (cbn : CBN) (t : String) :
    (merge_duplicate_edges_after_node_merge cbn t).anchor_queue
      = cbn.anchor_queue := by
  unfold merge_duplicate_edges_after_node_merge
  cases alookup t cbn.nodes with
  | none => rfl
  | some tn => exact dupApply_queue _ cbn

lemma pv_after_merge_step {cbn : CBN} {s t : String} {sn tn : Node}
    (hs : alookup s cbn.nodes = some sn) (ht : alookup t cbn.nodes = some tn)
    (k : String) :
    (alookup k (merge_duplicate_edges_after_node_merge (merge_nodes cbn s t) t).nodes).map
        (fun n => (n.status, n.is_stance))
      = if k = s then none
        else (alookup k cbn.nodes).map (fun n => (n.status, n.is_stance)) := by
  have h1 := nview_merge_dup (g := fun n => (n.status, n.is_stance)) viewStable_status
    (merge_nodes cbn s t) t
  have h2 := nview_merge_nodes_some (g := fun n => (n.status, n.is_stance)) viewStable_status hs ht
  have h3 := alookup_nview (fun n => (n.status, n.is_stance)) k
    (merge_duplicate_edges_after_node_merge (merge_nodes cbn s t) t).nodes
  rw [h1, h2, alookup_filter_ne] at h3
  rw [← h3]
  by_cases hk : k = s
  · rw [if_pos hk, if_pos hk]
  · rw [if_neg hk, if_neg hk, alookup_nview]


lemma merge_nodes_queue_fixup {cbn : CBN} {s t : String} {sn tn : Node}
    (hinv : anchor_queue_exact cbn)
    (hs : alookup s cbn.nodes = some sn) (ht : alookup t cbn.nodes = some tn)
    (hne : s ≠ t) (himp : sn.status = "anchor" → tn.status = "anchor") :
    s ∉ (merge_nodes cbn s t).anchor_queue ∧
    (t ∈ (merge_nodes cbn s t).anchor_queue ↔ tn.status = "anchor") := by
  obtain ⟨hq, hq1, hq2⟩ := hinv
  rw [merge_nodes_eq hs ht, mergeNodesCore_queue]
  by_cases hsq : s ∈ cbn.anchor_queue
  · rw [if_pos hsq]
    have hsanchor : sn.status = "anchor" := by
      have h1 := hq1 s hsq
      rw [hs] at h1
      exact Option.some_inj.mp h1
    have htanchor : tn.status = "anchor" := himp hsanchor
    have htq : t ∈ cbn.anchor_queue := hq2 (t, tn) (alookup_mem ht) htanchor
    have hterase : t ∈ cbn.anchor_queue.erase s :=
      (List.mem_erase_of_ne (Ne.symm hne)).mpr htq
    rw [if_pos hterase]
    constructor
    · exact fun hcon => ((List.Nodup.mem_erase_iff hq).mp hcon).1 rfl
    · exact ⟨fun _ => htanchor, fun _ => hterase⟩
  · rw [if_neg hsq]
    refine ⟨fun hcon => hsq hcon, ?_, ?_⟩
    · intro htq
      have h1 := hq1 t htq
      rw [ht] at h1
      exact Option.some_inj.mp h1
    · intro htanchor
      exact hq2 (t, tn) (alookup_mem ht) htanchor

lemma merge_step_invariants {cbn : CBN} {s t : String} {sn tn : Node}
    (hnd : (cbn.nodes.map Prod.fst).Nodup)
    (hinv : anchor_queue_exact cbn) (hstance : stance_nodes_anchored cbn)
    (hs : alookup s cbn.nodes = some sn) (ht : alookup t cbn.nodes = some tn)
    (hne : s ≠ t) (himp : sn.status = "anchor" → tn.status = "anchor") :
    ((merge_duplicate_edges_after_node_merge (merge_nodes cbn s t) t).nodes.map Prod.fst).Nodup ∧
    anchor_queue_exact (merge_duplicate_edges_after_node_merge (merge_nodes cbn s t) t) ∧
    stance_nodes_anchored (merge_duplicate_edges_after_node_merge (merge_nodes cbn s t) t) := by
  obtain ⟨hq, hq1, hq2⟩ := hinv
  have hkeys : (merge_duplicate_edges_after_node_merge (merge_nodes cbn s t) t).nodes.map Prod.fst
      = (cbn.nodes.map Prod.fst).filter (fun k => k ≠ s) := by
    rw [keys_merge_dup, keys_merge_nodes hs ht]
  have hqueue : (merge_duplicate_edges_after_node_merge (merge_nodes cbn s t) t).anchor_queue
      = if s ∈ cbn.anchor_queue then
          (if t ∈ cbn.anchor_queue.erase s then cbn.anchor_queue.erase s
           else cbn.anchor_queue.erase s ++ [t])
        else cbn.anchor_queue := by
    rw [merge_dup_queue, merge_nodes_eq hs ht, mergeNodesCore_queue]
  have hview : nview (fun n => (n.status, n.is_stance))
      (merge_duplicate_edges_after_node_merge (merge_nodes cbn s t) t).nodes
      = (nview (fun n => (n.status, n.is_stance)) cbn.nodes).filter (fun p => p.1 ≠ s) := by
    rw [nview_merge_dup viewStable_status, nview_merge_nodes_some viewStable_status hs ht]
  have hback : ∀ p : String × Node,
      p ∈ (merge_duplicate_edges_after_node_merge (merge_nodes cbn s t) t).nodes →
      p.1 ≠ s ∧ ∃ n0, (p.1, n0) ∈ cbn.nodes ∧ n0.status = p.2.status
        ∧ n0.is_stance = p.2.is_stance := by
    intro p hp
    have hv : (p.1, (p.2.status, p.2.is_stance)) ∈ nview (fun n => (n.status, n.is_stance))
        (merge_duplicate_edges_after_node_merge (merge_nodes cbn s t) t).nodes :=
      List.mem_map.mpr ⟨p, hp, rfl⟩
    rw [hview] at hv
    have hne1 : p.1 ≠ s := by
      have h1 := List.of_mem_filter hv
      simpa using h1
    obtain ⟨⟨a0, n0⟩, h0mem, h0eq⟩ := List.mem_map.mp (List.mem_of_mem_filter hv)
    have ha0 : a0 = p.1 := congrArg Prod.fst h0eq
    have hst : n0.status = p.2.status := congrArg (fun x => x.2.1) h0eq
    have hstn : n0.is_stance = p.2.is_stance := congrArg (fun x => x.2.2) h0eq
    subst ha0
    exact ⟨hne1, n0, h0mem, hst, hstn⟩
  have hstatus : ∀ k, k ≠ s →
      (alookup k (merge_duplicate_edges_after_node_merge (merge_nodes cbn s t) t).nodes).map
          (fun n => n.status)
        = (alookup k cbn.nodes).map (fun n => n.status) := by
    intro k hk
    have h := pv_after_merge_step hs ht k
    rw [if_neg hk] at h
    have h2 := congrArg (Option.map Prod.fst) h
    rw [Option.map_map, Option.map_map] at h2
    exact h2
  refine ⟨?_, ⟨?_, ?_, ?_⟩, ?_⟩
  · rw [hkeys]
    exact hnd.filter _
  · rw [hqueue]
    by_cases hsq : s ∈ cbn.anchor_queue
    · rw [if_pos hsq]
      by_cases htq : t ∈ cbn.anchor_queue.erase s
      · rw [if_pos htq]
        exact hq.erase s
      · rw [if_neg htq]
        refine List.Nodup.append (hq.erase s) (List.nodup_singleton t) ?_
        intro x hx1 hx2
        rw [List.mem_singleton] at hx2
        subst hx2
        exact htq hx1
    · rw [if_neg hsq]
      exact hq
  · rw [hqueue]
    intro k hk
    by_cases hsq : s ∈ cbn.anchor_queue
    · rw [if_pos hsq] at hk
      have hsanchor : sn.status = "anchor" := by
        have h1 := hq1 s hsq
        rw [hs] at h1
        exact Option.some_inj.mp h1
      by_cases htq : t ∈ cbn.anchor_queue.erase s
      · rw [if_pos htq] at hk
        have hks : k ≠ s := ((List.Nodup.mem_erase_iff hq).mp hk).1
        rw [hstatus k hks]
        exact hq1 k ((List.Nodup.mem_erase_iff hq).mp hk).2
      · rw [if_neg htq] at hk
        rcases List.mem_append.mp hk with hk1 | hk1
        · have hks : k ≠ s := ((List.Nodup.mem_erase_iff hq).mp hk1).1
          rw [hstatus k hks]
          exact hq1 k ((List.Nodup.mem_erase_iff hq).mp hk1).2
        · rw [List.mem_singleton] at hk1
          subst hk1
          rw [hstatus k (Ne.symm hne), ht]
          exact congrArg some (himp hsanchor)
    · rw [if_neg hsq] at hk
      have hks : k ≠ s := fun hc => hsq (hc ▸ hk)
      rw [hstatus k hks]
      exact hq1 k hk
  · rw [hqueue]
    intro p hp hpa
    obtain ⟨hps, n0, h0mem, h0st, h0stn⟩ := hback p hp
    have hpq : p.1 ∈ cbn.anchor_queue := hq2 (p.1, n0) h0mem (h0st.trans hpa)
    by_cases hsq : s ∈ cbn.anchor_queue
    · rw [if_pos hsq]
      have hper : p.1 ∈ cbn.anchor_queue.erase s := (List.mem_erase_of_ne hps).mpr hpq
      by_cases htq : t ∈ cbn.anchor_queue.erase s
      · rw [if_pos htq]
        exact hper
      · rw [if_neg htq]
        exact List.mem_append_left _ hper
    · rw [if_neg hsq]
      exact hpq
  · intro p hp hstp
    obtain ⟨hps, n0, h0mem, h0st, h0stn⟩ := hback p hp
    rw [← h0st]
    exact hstance (p.1, n0) h0mem (h0stn.trans hstp)


/-! ## The promotion pass keeps the queue exact (C8) -/

lemma promoteList_queue_mono :
    ∀ (l : List (String × Node)) (q : List String) (k : String),
    k ∈ q → k ∈ (promoteList l q).2
  | [], _, _, h => h
  | p :: rest, q, k, h => by
      show k ∈ (promoteList rest (promoteStep q p).2).2
      rcases promoteStep_cases q p with hc | ⟨_, _, _, hc⟩
      · rw [hc]
        exact promoteList_queue_mono rest q k h
      · rw [hc]
        exact promoteList_queue_mono rest _ k (List.mem_append_left _ h)

lemma promoteList_queue_nodup :
    ∀ (l : List (String × Node)) (q : List String),
    q.Nodup → (promoteList l q).2.Nodup
  | [], _, h => h
  | p :: rest, q, h => by
      show (promoteList rest (promoteStep q p).2).2.Nodup
      rcases promoteStep_cases q p with hc | ⟨_, hnq, _, hc⟩
      · rw [hc]
        exact promoteList_queue_nodup rest q h
      · rw [hc]
        refine promoteList_queue_nodup rest _ (List.Nodup.append h (List.nodup_singleton p.1) ?_)
        intro x hx1 hx2
        rw [List.mem_singleton] at hx2
        subst hx2
        exact hnq hx1

lemma promoteList_queue_new :
    ∀ (l : List (String × Node)) (q : List String) (k : String),
    k ∈ (promoteList l q).2 →
    k ∈ q ∨ ∃ n, (k, n) ∈ (promoteList l q).1 ∧ n.status = "anchor"
  | [], _, _, h => Or.inl h
  | p :: rest, q, k, h => by
      have hshape : promoteList (p :: rest) q
          = ((promoteStep q p).1 :: (promoteList rest (promoteStep q p).2).1,
             (promoteList rest (promoteStep q p).2).2) := rfl
      rw [hshape] at h ⊢
      rcases promoteStep_cases q p with hc | ⟨_, _, _, hc⟩
      · rw [hc] at h ⊢
        rcases promoteList_queue_new rest q k h with h1 | ⟨n, hn, ha⟩
        · exact Or.inl h1
        · exact Or.inr ⟨n, List.mem_cons_of_mem _ hn, ha⟩
      · rw [hc] at h ⊢
        rcases promoteList_queue_new rest (q ++ [p.1]) k h with h1 | ⟨n, hn, ha⟩
        · rcases List.mem_append.mp h1 with h2 | h2
          · exact Or.inl h2
          · rw [List.mem_singleton] at h2
            subst h2
            exact Or.inr ⟨{ p.2 with status := "anchor" }, List.mem_cons_self _ _, rfl⟩
        · exact Or.inr ⟨n, List.mem_cons_of_mem _ hn, ha⟩

lemma promoteList_nodes_source :
    ∀ (l : List (String × Node)) (q : List String) (k : String) (n' : Node),
    (k, n') ∈ (promoteList l q).1 →
    ∃ n, (k, n) ∈ l ∧ n'.is_stance = n.is_stance ∧
      (n' = n ∨ (n' = { n with status := "anchor" } ∧ k ∈ (promoteList l q).2))
  | [], _, k, n', h => absurd (h : (k, n') ∈ ([] : List (String × Node))) (List.not_mem_nil _)
  | p :: rest, q, k, n', h => by
      have hshape : promoteList (p :: rest) q
          = ((promoteStep q p).1 :: (promoteList rest (promoteStep q p).2).1,
             (promoteList rest (promoteStep q p).2).2) := rfl
      rw [hshape] at h ⊢
      rcases promoteStep_cases q p with hc | ⟨_, _, _, hc⟩
      · rw [hc] at h ⊢
        rcases List.mem_cons.mp h with heq | hmem
        · have hk : k = p.1 := congrArg Prod.fst heq
          have hn : n' = p.2 := congrArg Prod.snd heq
          subst hk
          exact ⟨p.2, List.mem_cons_self _ _, by rw [hn], Or.inl hn⟩
        · obtain ⟨n, hnm, hstn, hd⟩ := promoteList_nodes_source rest q k n' hmem
          exact ⟨n, List.mem_cons_of_mem _ hnm, hstn, hd⟩
      · rw [hc] at h ⊢
        rcases List.mem_cons.mp h with heq | hmem
        · have hk : k = p.1 := congrArg Prod.fst heq
          have hn : n' = { p.2 with status := "anchor" } := congrArg Prod.snd heq
          subst hk
          refine ⟨p.2, List.mem_cons_self _ _, by rw [hn], Or.inr ⟨hn, ?_⟩⟩
          exact promoteList_queue_mono rest _ p.1
            (List.mem_append_right _ (List.mem_singleton_self p.1))
        · obtain ⟨n, hnm, hstn, hd⟩ := promoteList_nodes_source rest (q ++ [p.1]) k n' hmem
          exact ⟨n, List.mem_cons_of_mem _ hnm, hstn, hd⟩

lemma promoteList_anchor_kept :
    ∀ (l : List (String × Node)) (q : List String) (k : String) (n : Node),
    (k, n) ∈ l → n.status = "anchor" → (k, n) ∈ (promoteList l q).1
  | [], _, k, n, h, _ => absurd h (by simp)
  | p :: rest, q, k, n, h, ha => by
      show (k, n) ∈ (promoteStep q p).1 :: (promoteList rest (promoteStep q p).2).1
      rcases List.mem_cons.mp h with heq | hmem
      · subst heq
        rw [promoteStep_anchor_fixed q (k, n) ha]
        exact List.mem_cons_self _ _
      · exact List.mem_cons_of_mem _ (promoteList_anchor_kept rest _ k n hmem ha)

lemma keys_promoteList :
    ∀ (l : List (String × Node)) (q : List String),
    (promoteList l q).1.map Prod.fst = l.map Prod.fst
  | [], _ => rfl
  | p :: rest, q => by
      show (promoteStep q p).1.1 :: ((promoteList rest (promoteStep q p).2).1.map Prod.fst)
        = p.1 :: rest.map Prod.fst
      rw [promoteStep_key, keys_promoteList rest _]

lemma check_node_promotion_invariants {cbn : CBN}
    (hnd : (cbn.nodes.map Prod.fst).Nodup)
    (hinv : anchor_queue_exact cbn) (hstance : stance_nodes_anchored cbn) :
    ((check_node_promotion cbn).nodes.map Prod.fst).Nodup ∧
    anchor_queue_exact (check_node_promotion cbn) ∧
    stance_nodes_anchored (check_node_promotion cbn) := by
  obtain ⟨hq, hq1, hq2⟩ := hinv
  have hkeys : (check_node_promotion cbn).nodes.map Prod.fst = cbn.nodes.map Prod.fst :=
    keys_promoteList cbn.nodes cbn.anchor_queue
  have hndout : ((check_node_promotion cbn).nodes.map Prod.fst).Nodup := by
    rw [hkeys]
    exact hnd
  refine ⟨hndout, ⟨?_, ?_, ?_⟩, ?_⟩
  · exact promoteList_queue_nodup cbn.nodes cbn.anchor_queue hq
  · intro k hk
    rcases promoteList_queue_new cbn.nodes cbn.anchor_queue k hk with h1 | ⟨n', hn', ha'⟩
    · have h2 := hq1 k h1
      rcases hmk : alookup k cbn.nodes with _ | n
      · rw [hmk] at h2
        exact absurd h2 (by simp)
      · rw [hmk] at h2
        have hna : n.status = "anchor" := Option.some_inj.mp h2
        have hkept := promoteList_anchor_kept cbn.nodes cbn.anchor_queue k n
          (alookup_mem hmk) hna
        rw [mem_alookup hndout hkept]
        exact congrArg some hna
    · rw [mem_alookup hndout hn']
      exact congrArg some ha'
  · intro p hp hpa
    obtain ⟨n, hnm, hstn, hd⟩ := promoteList_nodes_source cbn.nodes cbn.anchor_queue p.1 p.2 hp
    rcases hd with heq | ⟨hupd, hkq⟩
    · have hna : n.status = "anchor" := by
        rw [← heq]
        exact hpa
      exact promoteList_queue_mono cbn.nodes cbn.anchor_queue p.1 (hq2 (p.1, n) hnm hna)
    · exact hkq
  · intro p hp hstp
    obtain ⟨n, hnm, hstn, hd⟩ := promoteList_nodes_source cbn.nodes cbn.anchor_queue p.1 p.2 hp
    rcases hd with heq | ⟨hupd, _⟩
    · rw [heq]
      exact hstance (p.1, n) hnm (hstn ▸ hstp)
    · rw [hupd]


/-! ## Merge candidates never move an anchor into a plain candidate (C8) -/

lemma direction_anchor_target (k1 k2 : String) (n1 n2 : Node)
    (hs1 : n1.is_stance = true → n1.status = "anchor")
    (hs2 : n2.is_stance = true → n2.status = "anchor") :
    (determine_merge_direction k1 k2 n1 n2 = (k1, k2) ∧
       (n1.status = "anchor" → n2.status = "anchor")) ∨
    (determine_merge_direction k1 k2 n1 n2 = (k2, k1) ∧
       (n2.status = "anchor" → n1.status = "anchor")) := by
  by_cases c1 : n1.is_stance = true ∧ ¬ n2.is_stance = true
  · have hd : determine_merge_direction k1 k2 n1 n2 = (k2, k1) := by
      unfold determine_merge_direction
      rw [if_pos c1]
    exact Or.inr ⟨hd, fun _ => hs1 c1.1⟩
  · by_cases c2 : n2.is_stance = true ∧ ¬ n1.is_stance = true
    · have hd : determine_merge_direction k1 k2 n1 n2 = (k1, k2) := by
        unfold determine_merge_direction
        rw [if_neg c1, if_pos c2]
      exact Or.inl ⟨hd, fun _ => hs2 c2.1⟩
    · by_cases c3 : n1.status = "anchor" ∧ ¬ n2.status = "anchor"
      · have hd : determine_merge_direction k1 k2 n1 n2 = (k2, k1) := by
          unfold determine_merge_direction
          rw [if_neg c1, if_neg c2, if_pos c3]
        exact Or.inr ⟨hd, fun h2 => absurd h2 c3.2⟩
      · by_cases c4 : n2.status = "anchor" ∧ ¬ n1.status = "anchor"
        · have hd : determine_merge_direction k1 k2 n1 n2 = (k1, k2) := by
            unfold determine_merge_direction
            rw [if_neg c1, if_neg c2, if_neg c3, if_pos c4]
          exact Or.inl ⟨hd, fun h1 => absurd h1 c4.2⟩
        · have himp12 : n1.status = "anchor" → n2.status = "anchor" :=
            fun h1 => not_not.mp (fun h2 => c3 ⟨h1, h2⟩)
          have himp21 : n2.status = "anchor" → n1.status = "anchor" :=
            fun h2 => not_not.mp (fun h1 => c4 ⟨h2, h1⟩)
          rcases determine_direction_pair k1 k2 n1 n2 with hd | hd
          · exact Or.inl ⟨hd, himp12⟩
          · exact Or.inr ⟨hd, himp21⟩

lemma simRow_ids {id1 : String} {n1 : Node} :
    ∀ {rest : List (String × Node)} {trip : String × String × ℚ},
    trip ∈ simRow id1 n1 rest → trip.1 = id1 ∧ trip.2.1 ∈ rest.map Prod.fst := by
  intro rest
  induction rest with
  | nil => intro trip h; exact absurd h (by simp [simRow])
  | cons p tail ih =>
      intro trip h
      obtain ⟨a, b⟩ := p
      show trip.1 = id1 ∧ trip.2.1 ∈ a :: tail.map Prod.fst
      have hh : trip ∈ (if n1.label = "" ∨ b.label = "" then simRow id1 n1 tail
          else if node_similarity n1.label b.label ≥ similarity_threshold then
            (id1, a, node_similarity n1.label b.label) :: simRow id1 n1 tail
          else simRow id1 n1 tail) := h
      split_ifs at hh
      · obtain ⟨h1, h2⟩ := ih hh
        exact ⟨h1, List.mem_cons_of_mem _ h2⟩
      · rcases List.mem_cons.mp hh with heq | hmem
        · subst heq
          exact ⟨rfl, List.mem_cons_self _ _⟩
        · obtain ⟨h1, h2⟩ := ih hmem
          exact ⟨h1, List.mem_cons_of_mem _ h2⟩
      · obtain ⟨h1, h2⟩ := ih hh
        exact ⟨h1, List.mem_cons_of_mem _ h2⟩

lemma simPairs_ids :
    ∀ {nodes : List (String × Node)} {trip : String × String × ℚ},
    (nodes.map Prod.fst).Nodup → trip ∈ simPairs nodes → trip.1 ≠ trip.2.1 := by
  intro nodes
  induction nodes with
  | nil => intro trip _ h; exact absurd h (by simp [simPairs])
  | cons p tail ih =>
      intro trip hnd h
      rw [List.map_cons, List.nodup_cons] at hnd
      have hh : trip ∈ simRow p.1 p.2 tail ++ simPairs tail := h
      rcases List.mem_append.mp hh with h1 | h1
      · obtain ⟨he1, he2⟩ := simRow_ids h1
        intro hc
        rw [he1] at hc
        exact hnd.1 (hc ▸ he2)
      · exact ih hnd.2 h1

lemma find_mergeable_property {cbn : CBN}
    (hnd : (cbn.nodes.map Prod.fst).Nodup)
    (hstance : stance_nodes_anchored cbn) {pr : String × String}
    (h : pr ∈ find_mergeable_nodes cbn) :
    ∃ n1 n2, alookup pr.1 cbn.nodes = some n1 ∧ alookup pr.2 cbn.nodes = some n2 ∧
      pr.1 ≠ pr.2 ∧ (n1.status = "anchor" → n2.status = "anchor") := by
  unfold find_mergeable_nodes at h
  by_cases hlen : cbn.nodes.length < 2
  · rw [if_pos hlen] at h
    exact absurd h (by simp)
  · rw [if_neg hlen] at h
    obtain ⟨trip, htrip, hf⟩ := List.mem_filterMap.mp h
    have htrip2 : trip ∈ simPairs cbn.nodes := by
      have hfs : find_similar_nodes cbn.nodes = simPairs cbn.nodes := by
        unfold find_similar_nodes
        rw [if_neg hlen]
      rw [hfs] at htrip
      exact htrip
    have hids : trip.1 ≠ trip.2.1 := simPairs_ids hnd htrip2
    rcases halk1 : alookup trip.1 cbn.nodes with _ | m1
    · rw [halk1] at hf
      rcases halk2 : alookup trip.2.1 cbn.nodes with _ | m2 <;> rw [halk2] at hf <;>
        exact absurd (hf : (none : Option (String × String)) = some pr) (by simp)
    · rw [halk1] at hf
      rcases halk2 : alookup trip.2.1 cbn.nodes with _ | m2
      · rw [halk2] at hf
        exact absurd (hf : (none : Option (String × String)) = some pr) (by simp)
      · rw [halk2] at hf
        have hpr : pr = determine_merge_direction trip.1 trip.2.1 m1 m2 :=
          (Option.some_inj.mp
            (hf : some (determine_merge_direction trip.1 trip.2.1 m1 m2) = some pr)).symm
        have hm1 : m1.is_stance = true → m1.status = "anchor" :=
          hstance (trip.1, m1) (alookup_mem halk1)
        have hm2 : m2.is_stance = true → m2.status = "anchor" :=
          hstance (trip.2.1, m2) (alookup_mem halk2)
        rcases direction_anchor_target trip.1 trip.2.1 m1 m2 hm1 hm2 with ⟨hd, himp⟩ | ⟨hd, himp⟩
        · rw [hd] at hpr
          subst hpr
          exact ⟨m1, m2, halk1, halk2, hids, himp⟩
        · rw [hd] at hpr
          subst hpr
          exact ⟨m2, m1, halk2, halk1, Ne.symm hids, himp⟩


lemma applyMerges_invariants (cbn0 : CBN) :
    ∀ (cands : List (String × String)) (c : CBN),
    (∀ pr ∈ cands, ∃ n1 n2, alookup pr.1 cbn0.nodes = some n1 ∧
        alookup pr.2 cbn0.nodes = some n2 ∧ pr.1 ≠ pr.2 ∧
        (n1.status = "anchor" → n2.status = "anchor")) →
    (c.nodes.map Prod.fst).Nodup →
    anchor_queue_exact c → stance_nodes_anchored c →
    (∀ k : String, (alookup k c.nodes).isSome →
      (alookup k c.nodes).map (fun n => (n.status, n.is_stance))
        = (alookup k cbn0.nodes).map (fun n => (n.status, n.is_stance))) →
    ((applyNodeMerges c cands).nodes.map Prod.fst).Nodup ∧
    anchor_queue_exact (applyNodeMerges c cands) ∧
    stance_nodes_anchored (applyNodeMerges c cands)
  | [], c, _, hnd, hinv, hstance, _ => ⟨hnd, hinv, hstance⟩
  | (s, t) :: rest, c, hcands, hnd, hinv, hstance, hagree => by
      rw [applyNodeMerges_cons]
      by_cases hc : (alookup s c.nodes).isSome ∧ (alookup t c.nodes).isSome
      · rw [if_pos hc]
        obtain ⟨sn, hsn⟩ := Option.isSome_iff_exists.mp hc.1
        obtain ⟨tn, htn⟩ := Option.isSome_iff_exists.mp hc.2
        obtain ⟨n1, n2, h01, h02, hne, himp0⟩ := hcands (s, t) (List.mem_cons_self _ _)
        have hag1 := hagree s hc.1
        have hag2 := hagree t hc.2
        rw [hsn, h01] at hag1
        rw [htn, h02] at hag2
        have hagp1 : (sn.status, sn.is_stance) = (n1.status, n1.is_stance) :=
          Option.some_inj.mp hag1
        have hagp2 : (tn.status, tn.is_stance) = (n2.status, n2.is_stance) :=
          Option.some_inj.mp hag2
        have hfst1 : sn.status = n1.status := congrArg Prod.fst hagp1
        have hfst2 : tn.status = n2.status := congrArg Prod.fst hagp2
        have himp : sn.status = "anchor" → tn.status = "anchor" := by
          intro ha
          rw [hfst2]
          refine himp0 ?_
          rw [← hfst1]
          exact ha
        have hstep := merge_step_invariants hnd hinv hstance hsn htn hne himp
        refine applyMerges_invariants cbn0 rest _
          (fun pr hpr => hcands pr (List.mem_cons_of_mem _ hpr))
          hstep.1 hstep.2.1 hstep.2.2 ?_
        intro k hks
        have hpv := pv_after_merge_step hsn htn k
        rcases hmk : alookup k
            (merge_duplicate_edges_after_node_merge (merge_nodes c s t) t).nodes with _ | nk
        · rw [hmk] at hks
          exact absurd hks (by simp)
        · rw [hmk] at hpv
          by_cases hkeq : k = s
          · rw [if_pos hkeq] at hpv
            exact absurd hpv (by simp)
          · rw [if_neg hkeq] at hpv
            have hsome : (alookup k c.nodes).isSome := by
              rcases hmk2 : alookup k c.nodes with _ | nk2
              · rw [hmk2] at hpv
                exact absurd hpv (by simp)
              · rfl
            rw [hpv]
            exact hagree k hsome
      · rw [if_neg hc]
        exact applyMerges_invariants cbn0 rest c
          (fun pr hpr => hcands pr (List.mem_cons_of_mem _ hpr))
          hnd hinv hstance hagree

/-- **C8**: through the merge pass (node merges followed by the promotion
check) the anchor queue stays exactly the duplicate-free list of the ids of
the anchor-status nodes, assuming it was exact before and that every stance
node is an anchor (as `app.py` creates it); and, in particular, for any merge
the engine performs (a pair oriented by `_determine_merge_direction`), the
source id is no longer in the queue afterwards and the target id is in the
queue exactly when the target node's status is `anchor`. -/
theorem C8_anchor_queue_exactness (cbn : CBN)
    (hnd : (cbn.nodes.map Prod.fst).Nodup)
    (hinv : anchor_queue_exact cbn)
    (hstance : stance_nodes_anchored cbn) :
    (anchor_queue_exact (merge_graph_components cbn) ∧
     stance_nodes_anchored (merge_graph_components cbn)) ∧
    (∀ k1 k2 n1 n2 s t,
      alookup k1 cbn.nodes = some n1 → alookup k2 cbn.nodes = some n2 →
      k1 ≠ k2 → determine_merge_direction k1 k2 n1 n2 = (s, t) →
      s ∉ (merge_nodes cbn s t).anchor_queue ∧
      (t ∈ (merge_nodes cbn s t).anchor_queue ↔
        Option.map (fun n => n.status) (alookup t cbn.nodes) = some "anchor")) := by
  constructor
  · have hpass := applyMerges_invariants cbn (find_mergeable_nodes cbn) cbn
      (fun pr hpr => find_mergeable_property hnd hstance hpr)
      hnd hinv hstance (fun k _ => rfl)
    have hpromo := check_node_promotion_invariants hpass.1 hpass.2.1 hpass.2.2
    exact ⟨hpromo.2.1, hpromo.2.2⟩
  · intro k1 k2 n1 n2 s t h1 h2 hk hdir
    have hm1 : n1.is_stance = true → n1.status = "anchor" :=
      hstance (k1, n1) (alookup_mem h1)
    have hm2 : n2.is_stance = true → n2.status = "anchor" :=
      hstance (k2, n2) (alookup_mem h2)
    rcases direction_anchor_target k1 k2 n1 n2 hm1 hm2 with ⟨hd, himp⟩ | ⟨hd, himp⟩
    · have hst2 := hdir.symm.trans hd
      have hse : s = k1 := congrArg Prod.fst hst2
      have hte : t = k2 := congrArg Prod.snd hst2
      subst hse
      subst hte
      have hfix := merge_nodes_queue_fixup hinv h1 h2 hk himp
      refine ⟨hfix.1, hfix.2.trans ?_⟩
      rw [h2]
      constructor
      · intro ha
        exact congrArg some ha
      · intro ha
        exact Option.some_inj.mp ha
    · have hst2 := hdir.symm.trans hd
      have hse : s = k2 := congrArg Prod.fst hst2
      have hte : t = k1 := congrArg Prod.snd hst2
      subst hse
      subst hte
      have hfix := merge_nodes_queue_fixup hinv h2 h1 (Ne.symm hk) himp
      refine ⟨hfix.1, hfix.2.trans ?_⟩
      rw [h1]
      constructor
      · intro ha
        exact congrArg some ha
      · intro ha
        exact Option.some_inj.mp ha

/-- Witness for C8 on the concrete two-anchor fixture. -/
theorem C8_anchor_queue_exactness_witness :
    ((anchorPairCBN.nodes.map Prod.fst).Nodup ∧ anchor_queue_exact anchorPairCBN
      ∧ stance_nodes_anchored anchorPairCBN) ∧
    ((anchor_queue_exact (merge_graph_components anchorPairCBN) ∧
      stance_nodes_anchored (merge_graph_components anchorPairCBN)) ∧
     (∀ k1 k2 n1 n2 s t,
       alookup k1 anchorPairCBN.nodes = some n1 →
       alookup k2 anchorPairCBN.nodes = some n2 →
       k1 ≠ k2 → determine_merge_direction k1 k2 n1 n2 = (s, t) →
       s ∉ (merge_nodes anchorPairCBN s t).anchor_queue ∧
       (t ∈ (merge_nodes anchorPairCBN s t).anchor_queue ↔
         Option.map (fun n => n.status) (alookup t anchorPairCBN.nodes)
           = some "anchor"))) := by
  have hinvW : anchor_queue_exact anchorPairCBN := ⟨by decide, by decide, by decide⟩
  have hstW : stance_nodes_anchored anchorPairCBN := by
    unfold stance_nodes_anchored
    decide
  exact ⟨⟨by decide, hinvW, hstW⟩,
    C8_anchor_queue_exactness anchorPairCBN (by decide) hinvW hstW⟩


end CBNEngine
